import Mathlib

/-!
Verification of the report-parsing and derived-metrics pipeline of the
recon-hub backend (src/backend/main.py and src/backend/auth_kg.py).

The Python source is shallowly embedded: raw report text is modelled as
`List Char`, Python `int` as `ℤ`, Python `float` arithmetic as exact `ℚ`
(and as `ℝ` where the castle multiplier introduces a square root).
Regex-based extraction functions are translated into structural scanners
over character lists that follow the source regexes clause by clause;
the correspondence is documented at each definition.
-/

namespace ReconHub

/-! ## Character utilities

Python's `\s` class and `str.strip()` whitespace set, restricted to the
ASCII whitespace characters (the reports are ASCII): space, tab, newline,
carriage return, vertical tab, form feed. -/

def isWsChar (c : Char) : Bool :=
  c = ' ' || c = '\t' || c = '\n' || c = '\r' || c = Char.ofNat 11 || c = Char.ofNat 12

/-- ASCII-case-insensitive character comparison (Python `re.I`). -/
def ciEq (a b : Char) : Bool := a.toLower = b.toLower

/-- Lowercase a character list (Python `str.lower()` on ASCII text). -/
def lowerStr (s : List Char) : List Char := s.map Char.toLower

/-- Python `str.lstrip()` with the default whitespace set. -/
def lstripWs (s : List Char) : List Char := s.dropWhile isWsChar

/-- Python `str.rstrip()` with the default whitespace set. -/
def rstripWs (s : List Char) : List Char := (s.reverse.dropWhile isWsChar).reverse

/-- Python `str.strip()` with the default whitespace set. -/
def pyStrip (s : List Char) : List Char := rstripWs (lstripWs s)

/-- Case-insensitive literal-prefix match: consume `pat` (case-insensitively)
from the front of `s` and return the rest, or `none` (models a `re.I`
literal at the current position). -/
def stripCI : List Char → List Char → Option (List Char)
  | [], s => some s
  | _ :: _, [] => none
  | p :: ps, c :: cs => if ciEq p c then stripCI ps cs else none

/-- Case-insensitive `startswith` test. -/
def startsCI (pat s : List Char) : Bool := (stripCI pat s).isSome

/-- Exact-prefix test on character lists. -/
def startsWithStr : List Char → List Char → Bool
  | [], _ => true
  | _ :: _, [] => false
  | p :: ps, c :: cs => p = c && startsWithStr ps cs

/-- Exact substring test on character lists. -/
def containsStr (pat : List Char) : List Char → Bool
  | [] => startsWithStr pat []
  | c :: cs => startsWithStr pat (c :: cs) || containsStr pat cs

/-- Case-insensitive substring test (Python `pat in s` on lowered text). -/
def containsCI (pat s : List Char) : Bool :=
  containsStr (lowerStr pat) (lowerStr s)

/-- Try a partial match function at every suffix of `s`, left to right;
models `re.search` locating the leftmost position where the remainder of
the pattern matches. -/
def scanFirst {α : Type} (f : List Char → Option α) : List Char → Option α
  | [] => f []
  | c :: cs =>
    match f (c :: cs) with
    | some a => some a
    | none => scanFirst f cs

/-! ## Line splitting (Python `str.splitlines` on `\n`-separated text,
equivalently the line decomposition that `re.M` anchors `^`/`$` act on). -/

def linesAux (acc : List Char) : List Char → List (List Char)
  | [] => [acc]
  | c :: cs => if c = '\n' then acc :: linesAux [] cs else linesAux (acc ++ [c]) cs

def linesOf (t : List Char) : List (List Char) := linesAux [] t

/-- The suffixes of the text at line starts: the whole text, then the
suffix after each `'\n'`, in document order.  These are the positions at
which a `^`-anchored pattern under `re.M` attempts to match, so the
`re.search` of such a pattern is the first success over this list. -/
def lineTailsGo : List Char → List (List Char)
  | [] => []
  | c :: cs => if c = '\n' then cs :: lineTailsGo cs else lineTailsGo cs

def lineTails (t : List Char) : List (List Char) := t :: lineTailsGo t

/-! ## Integer and float parsing (`_num`, `_num_float`, main.py:494-515)

Python `float(s)` is modelled as an exact decimal/scientific literal
parser into `ℚ`: optional sign, digits with an optional decimal point
(at least one digit overall), and an optional `e`/`E` exponent with
optional sign.  IEEE-754 rounding and the `inf`/`nan` spellings are not
modelled; for the latter the observable behaviour of `_num` coincides
(`int(float("inf"))` raises, so `_num` yields `None` either way). -/

def digitsToNat (ds : List Char) : ℕ :=
  ds.foldl (fun acc c => acc * 10 + (c.toNat - '0'.toNat)) 0

/-- Parse `[0-9]*(\.[0-9]*)?` requiring at least one digit, returning the
value as `ℚ` together with the unconsumed rest. -/
def parseMantissa (s : List Char) : Option (ℚ × List Char) :=
  let intPart := s.takeWhile Char.isDigit
  let rest := s.dropWhile Char.isDigit
  match rest with
  | '.' :: rest2 =>
    let fracPart := rest2.takeWhile Char.isDigit
    let rest3 := rest2.dropWhile Char.isDigit
    if intPart = [] ∧ fracPart = [] then none
    else some (((digitsToNat (intPart ++ fracPart) : ℚ) / (10 : ℚ) ^ fracPart.length), rest3)
  | _ =>
    if intPart = [] then none
    else some ((digitsToNat intPart : ℚ), rest)

/-- Model of Python `float(s)` on the literal forms described above. -/
def floatOfChars (s : List Char) : Option ℚ :=
  let (sign, s1) : ℚ × List Char :=
    match s with
    | '+' :: r => (1, r)
    | '-' :: r => (-1, r)
    | r => (1, r)
  match parseMantissa s1 with
  | none => none
  | some (m, rest) =>
    match rest with
    | [] => some (sign * m)
    | e :: rest2 =>
      if e = 'e' ∨ e = 'E' then
        let (esign, rest3) : Bool × List Char :=
          match rest2 with
          | '+' :: r => (true, r)
          | '-' :: r => (false, r)
          | r => (true, r)
        let eds := rest3.takeWhile Char.isDigit
        if eds = [] ∨ rest3.dropWhile Char.isDigit ≠ [] then none
        else
          let ex := digitsToNat eds
          some (if esign then sign * m * (10 : ℚ) ^ ex else sign * m / (10 : ℚ) ^ ex)
      else none

/-- Python `int(q)` on a float value: truncation toward zero. -/
def truncQ (q : ℚ) : ℤ := if 0 ≤ q then ⌊q⌋ else ⌈q⌉

/-- The character deletion performed by `re.sub(r"[,\s]+", "", s.strip())`
in `_num`: every comma and whitespace character is removed. -/
def stripNumJunk (s : List Char) : List Char :=
  s.filter (fun c => ¬ (c = ',' ∨ isWsChar c))

/-- `_num` (main.py:494): strip commas/whitespace, return `none` on empty
or unparsable input, else `int(float(s2))`. -/
def numOf (s : List Char) : Option ℤ :=
  let s2 := stripNumJunk s
  if s2 = [] then none
  else (floatOfChars s2).map truncQ

/-- `_num_float` (main.py:506): `float(s.strip())`, `none` on empty or
unparsable input. -/
def numFloatOf (s : List Char) : Option ℚ :=
  let s2 := pyStrip s
  if s2 = [] then none
  else floatOfChars s2

/-! ## Counter reduction (`_auto_counter_reduction`, main.py:928-938)

Float literals `0.25` and `0.40` are read as the exact rationals
`1/4` and `2/5`. -/

def autoCounterReduction (counterCount targetCount : ℤ) (needRatio : ℚ) : ℚ :=
  if (counterCount : ℚ) ≤ 0 ∨ (targetCount : ℚ) ≤ 0 ∨ needRatio ≤ 0 then 0
  else if (targetCount : ℚ) * needRatio ≤ 0 then 0
  else max 0 (min (2/5 : ℚ)
    ((1/4 : ℚ) * ((counterCount : ℚ) / ((targetCount : ℚ) * needRatio))))

/-- Clamp as written in the specification: `clamp(x, lo, hi)`. -/
def clampSpec (x lo hi : ℚ) : ℚ := max lo (min hi x)

/-! ## Labeled-line extraction (`_grab_line`, main.py:489-491)

The source regex is `^\s*label\s*:\s*(.+?)\s*$` with `re.I | re.M`.  The
whitespace runs `\s*` are greedy and cross newlines, so at a line-start
position the pattern consumes whitespace (possibly spanning blank
lines), the label (case-insensitively; a literal space in the label
matches only a space), more whitespace (the colon may thus sit on a
later line than the label), the colon, and then the value part
`\s*(.+?)\s*$`.  Since the lazy group cannot contain a newline, the
group is the first line of content after the colon once all whitespace
is skipped, right-stripped by the trailing `\s*$`; when only whitespace
remains up to the end of the document, backtracking can still let the
group capture a single non-newline whitespace character (stripped to the
empty string by the caller), and the attempt fails only when nothing but
newlines follows.  `re.search` returns the match whose start position is
earliest, which is the first line-start attempt that succeeds. -/

/-- The `\s*(.+?)\s*$` value part, matched against the rest of the
document after the colon, already combined with the caller's
`.strip()`. -/
def grabValueTail (s : List Char) : Option (List Char) :=
  if lstripWs s = [] then
    if s.any (fun c => ¬ c = '\n') then some [] else none
  else some (rstripWs ((lstripWs s).takeWhile (fun c => ¬ c = '\n')))

/-- One attempt of the `_grab_line` pattern at a line-start position
(`s` is the suffix of the document from that position). -/
def grabAt (label s : List Char) : Option (List Char) :=
  match stripCI label (lstripWs s) with
  | none => none
  | some l2 =>
    match lstripWs l2 with
    | ':' :: rest => grabValueTail rest
    | _ => none

/-- `_grab_line`: the value at the first line-start position where the
pattern matches, or `none`. -/
def grabLine (text label : List Char) : Option (List Char) :=
  (lineTails text).findSome? (grabAt label)

/-- The single-line reading of the labeled-line pattern, used to state
the claim about texts containing (or lacking) a `label: value` line: the
line is `ws* ++ label ++ ws* ++ ':' ++ rest` with a nonempty rest, and
the value is `rest` trimmed. -/
def lineLabelValue (label line : List Char) : Option (List Char) :=
  match stripCI label (lstripWs line) with
  | none => none
  | some l2 =>
    match lstripWs l2 with
    | [] => none
    | d :: rest => if d = ':' ∧ rest ≠ [] then some (pyStrip rest) else none

/-! ## Section extraction (`_section`, main.py:518-529)

The header regex `^\s*header\s*$` (`re.I | re.M`) matches a line whose
trimmed content equals `header` case-insensitively.  The source returns
the text between the end of the header match and the start of the
earliest stop-header match (or end of document), then strips it.  At
line granularity this is exactly: the lines strictly after the first
header line, up to (excluding) the first subsequent line matching any
stop header.  (The final `.strip()` and the blank lines that `\s*$` may
absorb only affect all-whitespace line prefixes/suffixes of the chunk,
which none of the per-line consumers below can match.) -/

def lineIsHeader (header line : List Char) : Bool :=
  lowerStr (pyStrip line) = lowerStr header

def sectionLinesAfter (ls : List (List Char)) (header : List Char)
    (stops : List (List Char)) : List (List Char) :=
  match ls with
  | [] => []
  | l :: rest =>
    if lineIsHeader header l then
      rest.takeWhile (fun l' => ¬ stops.any (fun s => lineIsHeader s l'))
    else sectionLinesAfter rest header stops

def sectionOf (text : List Char) (header : List Char)
    (stops : List (List Char)) : List (List Char) :=
  sectionLinesAfter (linesOf text) header stops

/-! ## Key-value line blocks (`_parse_kv_lines`, main.py:532-543)

Per line, the source matches `^\s*([^:]{1,80}?)\s*:\s*([0-9][0-9,\s]*)\s*$`.
The name group sits between the leading whitespace and the first colon
(it cannot contain a colon): with `pre` the characters before the first
colon, the group can be chosen as any window of `pre` that starts after
some of the leading whitespace and ends before some of the trailing
whitespace, of length 1..80.  Such a window exists iff `pre` is nonempty
and the trimmed core of `pre` has length at most 80; the stored key is
`pre` trimmed (possibly empty, when `pre` is all whitespace).  The value
group must be, after optional whitespace, a digit followed only by
digits, commas and whitespace up to the end of the line; it is parsed
with `_num`. -/

def kvDigitClass (c : Char) : Bool := c.isDigit || c = ',' || isWsChar c

def splitAtColon (l : List Char) : Option (List Char × List Char) :=
  match l with
  | [] => none
  | ':' :: rest => some ([], rest)
  | c :: rest =>
    match splitAtColon rest with
    | none => none
    | some (pre, post) => some (c :: pre, post)

/-- One line of `_parse_kv_lines`; `maxName` is the `{1,80}` (kv lines)
or `{2,80}` (research fallback) repetition bound, `minName` its lower
bound. -/
def lineKVWith (minName maxName : ℕ) (valueOk : List Char → Bool)
    (l : List Char) : Option (List Char × List Char) :=
  match splitAtColon l with
  | none => none
  | some (pre, post) =>
    let core := pyStrip pre
    -- feasibility of the name window [s, e) with s ≤ lead, e ≥ lead + core.length
    if pre.length < minName then none
    else if core.length > maxName then none
    else
      let v := lstripWs post
      if valueOk v then some (core, v) else none

def kvValueOk (v : List Char) : Bool :=
  match v with
  | [] => false
  | c :: cs => c.isDigit && cs.all kvDigitClass

def lineKV (l : List Char) : Option (List Char × ℤ) :=
  match lineKVWith 1 80 kvValueOk l with
  | none => none
  | some (k, v) =>
    match numOf v with
    | none => none
    | some n => some (k, n)

/-! Python-dict association lists: one entry per key, insertion ordered;
`dictSet` overwrites in place or appends, `dictGet` looks up. -/

def dictGet {α : Type} (d : List (List Char × α)) (k : List Char) : Option α :=
  match d with
  | [] => none
  | (k', v) :: rest => if k' = k then some v else dictGet rest k

def dictSet {α : Type} (d : List (List Char × α)) (k : List Char) (v : α) :
    List (List Char × α) :=
  match d with
  | [] => [(k, v)]
  | (k', v') :: rest =>
    if k' = k then (k', v) :: rest else (k', v') :: dictSet rest k v

/-- `_parse_kv_lines` over the lines of a chunk. -/
def parseKvLines (ls : List (List Char)) : List (List Char × ℤ) :=
  ls.foldl
    (fun out l =>
      match lineKV l with
      | none => out
      | some (k, v) => dictSet out k v)
    []

/-! ## Research levels (`_parse_research_levels`, main.py:546-587) -/

/-- Apostrophe character, used to build the section-header literals that
contain one. -/
def apos : Char := Char.ofNat 39

def techHeader : List Char :=
  "The following technology information was also discovered:".data

def marketHeader : List Char :=
  "The following recent market transactions were also discovered:".data

def aboutTheStop : List Char :=
  "Our spies also found the following information about the".data

def movementsHeader : List Char :=
  "The following information was found regarding troop movements".data

/-- The bullet characters stripped by `line.strip().lstrip("-*â€¢ ")`
(the three middle characters are the mojibake rendering of a bullet). -/
def isBulletChar (c : Char) : Bool :=
  c = '-' || c = '*' || c = 'â' || c = '€' || c = '¢' || c = ' '

/-- Match `(?:lv\.?|lvl\.?|level)\s*([0-9]{1,3})\s*$` at the start of `s`
(ordered alternation with backtracking, as the regex engine does). -/
def lvDigitsEnd (s : List Char) : Option ℤ :=
  let ds := s.takeWhile Char.isDigit
  if 1 ≤ ds.length ∧ ds.length ≤ 3 ∧ (s.dropWhile Char.isDigit).all isWsChar
  then some (digitsToNat ds : ℤ) else none

def lvTokenTail (s : List Char) : Option ℤ :=
  let afterTok : List Char → Option ℤ := fun r =>
    let r1 := match r with
      | '.' :: t => t
      | t => t
    lvDigitsEnd (lstripWs r1)
  match stripCI "lv".data s with
  | some r =>
    match afterTok r with
    | some v => some v
    | none =>
      match stripCI "lvl".data s with
      | some r2 =>
        match afterTok r2 with
        | some v => some v
        | none =>
          match stripCI "level".data s with
          | some r3 => lvDigitsEnd (lstripWs r3)
          | none => none
      | none =>
        match stripCI "level".data s with
        | some r3 => lvDigitsEnd (lstripWs r3)
        | none => none
  | none =>
    match stripCI "level".data s with
    | some r3 => lvDigitsEnd (lstripWs r3)
    | none => none

/-- Form `^(.+?)\s+(?:lv\.?|lvl\.?|level)\s*([0-9]{1,3})\s*$`: the lazy
name group means the leftmost split wins; the name never ends in the
splitting whitespace. -/
def researchForm1Go (acc : List Char) : List Char → Option (List Char × ℤ)
  | [] => none
  | c :: cs =>
    let acc' := acc ++ [c]
    match cs with
    | d :: _ =>
      if isWsChar d then
        match lvTokenTail (lstripWs cs) with
        | some lvl => some (acc', lvl)
        | none => researchForm1Go acc' cs
      else researchForm1Go acc' cs
    | [] => none

def researchForm1 (l : List Char) : Option (List Char × ℤ) :=
  researchForm1Go [] l

/-- Fallback form `^([^:]{2,80}?)\s*:\s*([0-9]{1,3})\s*$`. -/
def researchForm2 (l : List Char) : Option (List Char × ℤ) :=
  match lineKVWith 2 80 (fun v => (lvDigitsEnd v).isSome) l with
  | none => none
  | some (k, v) =>
    match lvDigitsEnd v with
    | none => none
    | some n => some (k, n)

/-- The per-line body of the research loop after preprocessing: match
either form, keep positive levels with a nonempty stripped name. -/
def researchLineBody (line : List Char) : Option (List Char × ℤ) :=
  if line = [] then none
  else
    match researchForm1 line with
    | some (n, lvl) =>
      if pyStrip n = [] ∨ lvl ≤ 0 then none else some (pyStrip n, lvl)
    | none =>
      match researchForm2 line with
      | some (n, lvl) =>
        if pyStrip n = [] ∨ lvl ≤ 0 then none else some (pyStrip n, lvl)
      | none => none

/-- One line of the research loop: strip, strip bullets, then the form
match. -/
def researchLineLevel (raw : List Char) : Option (List Char × ℤ) :=
  researchLineBody (pyStrip ((pyStrip raw).dropWhile isBulletChar))

/-- Dictionary update of the research loop: `prev = out.get(name, 0);
if lvl > prev: out[name] = lvl`. -/
def researchStep (d : List (List Char × ℤ)) (raw : List Char) :
    List (List Char × ℤ) :=
  match researchLineLevel raw with
  | none => d
  | some (n, lvl) => if (dictGet d n).getD 0 < lvl then dictSet d n lvl else d

def researchSectionOf (text : List Char) : List (List Char) :=
  sectionOf text techHeader [marketHeader, aboutTheStop, movementsHeader]

/-- `_parse_research_levels`. -/
def parseResearchLevels (text : List Char) : List (List Char × ℤ) :=
  (researchSectionOf text).foldl researchStep []

/-! ## Spy report parsing (`parse_spy_report`, main.py:590-655) -/

def resourcesHeader : List Char :=
  "Our spies also found the following information about the kingdom".data
    ++ [apos] ++ "s resources:".data

def troopsHeader : List Char :=
  "Our spies also found the following information about the kingdom".data
    ++ [apos] ++ "s troops:".data

def troopsStops : List (List Char) :=
  [ movementsHeader
  , marketHeader
  , techHeader
  , "Our spies also found the following information about the small town".data
  , "Our spies also found the following information about the medium town".data
  , "Our spies also found the following information about the large town".data ]

/-- Character class `[0-9,\.e\+]` of the defensive-power regex; under
`re.I` the letter also matches uppercase. -/
def dpClassChar (c : Char) : Bool :=
  c.isDigit || c = ',' || c = '.' || ciEq 'e' c || c = '+'

/-- Partial match of `Approximate defensive power\*?\s*:\s*([0-9,\.e\+]+)`
at the start of `s` (the pattern is unanchored in the source, so it is
tried at every position via `scanFirst`). -/
def dpAt (s : List Char) : Option (List Char) :=
  match stripCI "approximate defensive power".data s with
  | none => none
  | some r1 =>
    let r2 := match r1 with
      | '*' :: t => t
      | t => t
    match lstripWs r2 with
    | ':' :: r3 =>
      let grp := (lstripWs r3).takeWhile dpClassChar
      if grp = [] then none else some grp
    | _ => none

/-- The defender-power field: first full match of the pattern, then
`int(float(group.replace(",", "")))` with failure giving `None`. -/
def spyDefenderDp (text : List Char) : Option ℤ :=
  match scanFirst dpAt text with
  | none => none
  | some grp => (floatOfChars (grp.filter (fun c => ¬ c = ','))).map truncQ

/-- Keys dropped from the troops map (main.py:630-637): any key whose
lowercase form starts with "population" or contains "defensive power". -/
def isPseudoTroopKey (k : List Char) : Bool :=
  startsWithStr "population".data (lowerStr k)
    || containsStr "defensive power".data (lowerStr k)

structure SpyParsed where
  target : Option (List Char)
  alliance : Option (List Char)
  honour : Option ℚ
  ranking : Option ℤ
  networth : Option ℤ
  spiesSent : Option ℤ
  spiesLost : Option ℤ
  resultLevel : Option (List Char)
  castles : Option ℤ
  defenderDp : Option ℤ
  resources : List (List Char × ℤ)
  troops : List (List Char × ℤ)
  researchLevels : List (List Char × ℤ)
  deriving DecidableEq

/-- `parse_spy_report` (the settlement-mention list is extracted by a
separate function in the source and is not part of this record there
either). -/
def parseSpyReport (text : List Char) : SpyParsed :=
  { target := grabLine text "Target".data
    alliance := grabLine text "Alliance".data
    honour := (grabLine text "Honour".data).bind numFloatOf
    ranking := (grabLine text "Ranking".data).bind numOf
    networth := (grabLine text "Networth".data).bind numOf
    spiesSent := (grabLine text "Spies Sent".data).bind numOf
    spiesLost := (grabLine text "Spies Lost".data).bind numOf
    resultLevel := grabLine text "Result Level".data
    castles := (grabLine text "Number of Castles".data).bind numOf
    defenderDp := spyDefenderDp text
    resources := parseKvLines (sectionOf text resourcesHeader [troopsHeader])
    troops :=
      (parseKvLines (sectionOf text troopsHeader troopsStops)).filter
        (fun kv => ! isPseudoTroopKey kv.1)
    researchLevels := parseResearchLevels text }

/-! ## Attack report parsing (`parse_attack_report`, main.py:792-851)

The fields modelled are target, target networth, attack result, gains
and casualties.  The received-at timestamp (a `strptime` with two
month-name formats), the settlement-mention list and the settlement-event
classification of the source dict are omitted here: no claim under
verification refers to them. -/

/-- Match `\(NW:\s*\+?\s*([0-9,]+)\)\s*$` at the start of `s` (the rest
of the document — the inner whitespace runs may span line breaks); on a
match return `_num` of the digits/commas group (which may itself be
`None`, e.g. for a bare comma).  The trailing `\s*$` succeeds exactly
when the remainder of the closing parenthesis's line is whitespace. -/
def nwTail (s : List Char) : Option (Option ℤ) :=
  match s with
  | '(' :: r =>
    match stripCI "nw:".data r with
    | none => none
    | some r2 =>
      let r3 := match lstripWs r2 with
        | '+' :: t => t
        | t => t
      let r4 := lstripWs r3
      let grp := r4.takeWhile (fun c => c.isDigit || c = ',')
      if grp = [] then none
      else
        match r4.drop grp.length with
        | ')' :: r5 =>
          if (r5.takeWhile (fun c => ¬ c = '\n')).all isWsChar
          then some (numOf grp) else none
        | _ => none
  | _ => none

/-- The lazy name group of the primary header pattern
`^\s*Attack Report:\s*(.+?)\s*\(NW:\s*\+?\s*([0-9,]+)\)\s*$`: the group
cannot contain a newline, so it is a prefix of the line holding the
first non-whitespace character after the colon; the leftmost split whose
tail (after whitespace, possibly spanning line breaks) completes the
`(NW: ...)` part wins, and the caller strips it. -/
def attackNameScan (acc : List Char) : List Char → Option (List Char × Option ℤ)
  | [] => none
  | c :: cs =>
    if c = '\n' then none
    else
      match nwTail (lstripWs cs) with
      | some nw => some (pyStrip (acc ++ [c]), nw)
      | none => attackNameScan (acc ++ [c]) cs

def attackReportLabel : List Char := "attack report:".data

/-- One attempt of the primary header pattern at a line-start position.
When every split starting at the first non-whitespace character after
the colon fails but that character already opens a matching `(NW: ...)`
tail, backtracking lets the lazy group capture a preceding non-newline
whitespace character instead, which strips to an empty target name. -/
def attackPrimaryAt (s : List Char) : Option (List Char × Option ℤ) :=
  match stripCI attackReportLabel (lstripWs s) with
  | none => none
  | some rest =>
    match attackNameScan [] (lstripWs rest) with
    | some r => some r
    | none =>
      match nwTail (lstripWs rest) with
      | some nw =>
        if (rest.takeWhile isWsChar).any (fun c => ¬ c = '\n') then
          some ([], nw)
        else none
      | none => none

/-- One attempt of the fallback pattern
`^\s*Subject:\s*Attack Report:\s*(.+?)\s*$` at a line-start position;
all three whitespace runs may span line breaks, and the value part is
the shared `grabValueTail`. -/
def subjectAt (s : List Char) : Option (List Char) :=
  match stripCI "subject:".data (lstripWs s) with
  | none => none
  | some r =>
    match stripCI attackReportLabel (lstripWs r) with
    | none => none
    | some rest => grabValueTail rest

/-- The single-line reading of the fallback pattern, used to state the
claim about texts containing a `Subject: Attack Report: <name>` line. -/
def lineSubjectTarget (l : List Char) : Option (List Char) :=
  match stripCI "subject:".data (lstripWs l) with
  | none => none
  | some r =>
    match stripCI "attack report:".data (lstripWs r) with
    | none => none
    | some rest => if rest = [] then none else some (pyStrip rest)

/-- Leftmost full match of `phrase ++ \s*(.+?)\s*$` (`re.I | re.M`,
unanchored): the captured-and-stripped value is the first line of the
text after the phrase once leading whitespace (including newlines, which
the greedy `\s*` crosses) is skipped, itself right-stripped.  When only
whitespace follows every occurrence of the phrase, the source may still
match with an all-whitespace group, which strips to `""` and yields the
same empty gain/casualty list as no match at all. -/
def phraseLineValue (phrase text : List Char) : Option (List Char) :=
  scanFirst
    (fun s =>
      match stripCI phrase s with
      | none => none
      | some rest =>
        let u := lstripWs rest
        if u = [] then none
        else some (rstripWs (u.takeWhile (fun c => ¬ c = '\n'))))
    text

/-- One comma-separated item of `_parse_gain_list` (main.py:671-684)
against `^([0-9][0-9,\s]*)\s+(.+?)$`: the greedy amount group extends to
the last whitespace run inside the leading digits/commas/whitespace run,
the mandatory `\s+` is that run, and the name is the (stripped)
remainder. -/
def parseGainItem (p : List Char) : Option (List Char × Option ℤ) :=
  match p with
  | [] => none
  | c :: _ =>
    if ¬ c.isDigit then none
    else
      let run := p.takeWhile kvDigitClass
      if run.length = p.length then none
      else
        let rev := run.reverse
        let d := rev.takeWhile (fun c => ¬ isWsChar c)
        let wsrun := (rev.drop d.length).takeWhile isWsChar
        if wsrun = [] then none
        else
          let a := run.length - d.length - wsrun.length
          let b := run.length - d.length
          some (pyStrip (p.drop b), numOf (p.take a))

/-- Split on `','` (Python `str.split(",")`). -/
def splitCommaAux (acc : List Char) : List Char → List (List Char)
  | [] => [acc]
  | c :: cs => if c = ',' then acc :: splitCommaAux [] cs else splitCommaAux (acc ++ [c]) cs

def splitComma (s : List Char) : List (List Char) := splitCommaAux [] s

/-- `_parse_gain_list`. -/
def parseGainList (chunk : List Char) : List (List Char × ℤ) :=
  (splitComma chunk).foldl
    (fun out part =>
      let p := pyStrip part
      if p = [] then out
      else
        match parseGainItem p with
        | none => out
        | some (_, none) => out
        | some (name, some n) => dictSet out name n)
    []

/-- One item of `_parse_casualty_list` (main.py:687-702) against
`^([0-9][0-9,\s]*)\s*/\s*([0-9][0-9,\s]*)\s+(.+?)$`: the lost group is
the digits/commas/whitespace run before the slash, and the part after
the slash follows the gain-item shape. -/
def parseCasualtyItem (p : List Char) : Option (List Char × Option ℤ × Option ℤ) :=
  match p with
  | [] => none
  | c :: _ =>
    if ¬ c.isDigit then none
    else
      let run := p.takeWhile kvDigitClass
      match p.drop run.length with
      | '/' :: right =>
        match parseGainItem (lstripWs right) with
        | none => none
        | some (name, sent) => some (name, numOf run, sent)
      | _ => none

/-- `_parse_casualty_list`; values are (lost, sent) pairs. -/
def parseCasualtyList (chunk : List Char) : List (List Char × ℤ × ℤ) :=
  (splitComma chunk).foldl
    (fun out part =>
      let p := pyStrip part
      if p = [] then out
      else
        match parseCasualtyItem p with
        | none => out
        | some (_, none, _) => out
        | some (_, _, none) => out
        | some (name, some lost, some sent) => dictSet out name (lost, sent))
    []

def gainsPhrase : List Char :=
  "You have gained the following during the attack:".data

def casualtiesPhrase : List Char :=
  "We regret to inform you of the following casualties during the attack:".data

structure AttackParsed where
  target : Option (List Char)
  targetNetworth : Option ℤ
  attackResult : Option (List Char)
  gains : List (List Char × ℤ)
  casualties : List (List Char × ℤ × ℤ)
  deriving DecidableEq

/-- `parse_attack_report` on the modelled fields. -/
def parseAttackReport (text : List Char) : AttackParsed :=
  let (target, targetNetworth) :=
    match (lineTails text).findSome? attackPrimaryAt with
    | some (t, nw) => (some t, nw)
    | none =>
      match (lineTails text).findSome? subjectAt with
      | some t => (some t, none)
      | none => (none, none)
  { target := target
    targetNetworth := targetNetworth
    attackResult := grabLine text "Attack Result".data
    gains :=
      match phraseLineValue gainsPhrase text with
      | none => []
      | some chunk => parseGainList chunk
    casualties :=
      match phraseLineValue casualtiesPhrase text with
      | none => []
      | some chunk => parseCasualtyList chunk }

/-! ## Ingestion boundary (`ingest_report`, main.py:1905-2035)

The classifier is `re.search(r"^\s*Attack Report:\s*", raw_text, re.I|re.M)`
on the stripped body text.  Database writes (and the settlement-observation
and known-hit side inserts) are abstracted away; the outcome type records
what is decided at the boundary: the two `HTTPException(400)` rejections
and the two stored-report shapes. -/

/-- Does a line begin, after optional leading whitespace, with the given
literal (case-insensitively)?  Because a literal containing no newline
cannot match across a line break, a pattern of the form `^\s*literal`
under `re.M` has a match in the document exactly when some line
satisfies this predicate. -/
def lineStartsLabel (pat l : List Char) : Bool :=
  startsCI pat (lstripWs l)

def lineStartsAttack (l : List Char) : Bool :=
  lineStartsLabel attackReportLabel l

/-- `ClassifyReport`: is there a line beginning (after optional leading
whitespace) with `Attack Report:`? -/
def isAttackText (t : List Char) : Bool :=
  (linesOf t).any lineStartsAttack

inductive IngestOutcome where
  | rejectedEmpty
  | rejectedAttackNoTarget
  | storedAttack (parsed : AttackParsed)
  | rejectedSpyNoTarget
  | storedSpy (parsed : SpyParsed)
  deriving DecidableEq

/-- Whether an outcome is one of the two 400-rejections or the empty-body
rejection. -/
def IngestOutcome.isRejection : IngestOutcome → Bool
  | .rejectedEmpty => true
  | .rejectedAttackNoTarget => true
  | .rejectedSpyNoTarget => true
  | _ => false

def ingestReport (raw : List Char) : IngestOutcome :=
  let t := pyStrip raw
  if t = [] then .rejectedEmpty
  else if isAttackText t then
    let pa := parseAttackReport t
    if pyStrip (pa.target.getD []) = [] then .rejectedAttackNoTarget
    else .storedAttack pa
  else
    let ps := parseSpyReport t
    if pyStrip (ps.target.getD []) = [] then .rejectedSpyNoTarget
    else .storedSpy ps

/-! ## Combat-outcome estimator (main.py:854-1103)

Unit counts are bucketed into the nine canonical kinds by substring
matching (`_auto_norm_unit`), summed into a `Units` record
(`_auto_zero_units` plus the accumulation loops), grouped
(`_auto_grouped`), and weighted with the fixed attack/defense tables.
Weights are the exact rationals of the float literals. -/

inductive UnitKind where
  | peasants | footmen | pikemen | elites | archers
  | crossbowmen | lightCav | heavyCav | knights
  deriving DecidableEq

/-- `_auto_norm_unit` (main.py:878-902). -/
def autoNormUnit (name : List Char) : Option UnitKind :=
  let n := lowerStr (pyStrip name)
  if n = [] then none
  else if containsStr "foot".data n then some .footmen
  else if containsStr "pike".data n then some .pikemen
  else if containsStr "elite".data n then some .elites
  else if containsStr "crossbow".data n then some .crossbowmen
  else if containsStr "archer".data n then some .archers
  else if containsStr "light".data n && containsStr "cav".data n then some .lightCav
  else if containsStr "heavy".data n && containsStr "cav".data n then some .heavyCav
  else if containsStr "knight".data n then some .knights
  else if containsStr "peasant".data n then some .peasants
  else if containsStr "cav".data n then some .lightCav
  else none

structure Units where
  peasants : ℤ
  footmen : ℤ
  pikemen : ℤ
  elites : ℤ
  archers : ℤ
  crossbowmen : ℤ
  lightCav : ℤ
  heavyCav : ℤ
  knights : ℤ
  deriving DecidableEq

/-- `_auto_zero_units`. -/
def Units.zero : Units := ⟨0, 0, 0, 0, 0, 0, 0, 0, 0⟩

def Units.add (u : Units) (k : UnitKind) (n : ℤ) : Units :=
  match k with
  | .peasants => { u with peasants := u.peasants + n }
  | .footmen => { u with footmen := u.footmen + n }
  | .pikemen => { u with pikemen := u.pikemen + n }
  | .elites => { u with elites := u.elites + n }
  | .archers => { u with archers := u.archers + n }
  | .crossbowmen => { u with crossbowmen := u.crossbowmen + n }
  | .lightCav => { u with lightCav := u.lightCav + n }
  | .heavyCav => { u with heavyCav := u.heavyCav + n }
  | .knights => { u with knights := u.knights + n }

/-! `_auto_grouped` (main.py:919-925). -/

def Units.groupInfantry (u : Units) : ℤ := u.footmen + u.pikemen + u.elites

def Units.groupArchers (u : Units) : ℤ := u.archers + u.crossbowmen

def Units.groupCavalry (u : Units) : ℤ := u.lightCav + u.heavyCav + u.knights

def Units.groupPike (u : Units) : ℤ := u.pikemen

/-- `_auto_attack_units_from_casualties` (main.py:941-949); the
`_num(str(item.get("sent") or "0")) or 0` round-trip is the identity on
the integer-valued casualty model, leaving `max(0, sent)`. -/
def attackUnitsFromCasualties (cs : List (List Char × ℤ × ℤ)) : Units :=
  cs.foldl
    (fun out item =>
      match autoNormUnit item.1 with
      | none => out
      | some k => out.add k (max 0 item.2.2))
    Units.zero

/-- `_auto_defender_units_from_spy` (main.py:952-959): buckets the spy
report's troops map with `max(0, int(count or 0))`. -/
def defenderUnitsFromSpy (ps : SpyParsed) : Units :=
  ps.troops.foldl
    (fun out kv =>
      match autoNormUnit kv.1 with
      | none => out
      | some k => out.add k (max 0 kv.2))
    Units.zero

/-- `_auto_compute_attack_power` (main.py:962-990). -/
def computeAttackPower (a d : Units) : ℚ :=
  let infantryAp : ℚ := (a.footmen : ℚ) * 1 + (a.pikemen : ℚ) * 2 + (a.elites : ℚ) * 10
  let archerAp : ℚ := (a.archers : ℚ) * 1 + (a.crossbowmen : ℚ) * 3
  let cavAp : ℚ := (a.lightCav : ℚ) * 5 + (a.heavyCav : ℚ) * 7 + (a.knights : ℚ) * 15
  let defPikeVsAtkCav := autoCounterReduction d.groupPike a.groupCavalry (1/4)
  let defCavVsAtkArch := autoCounterReduction d.groupCavalry a.groupArchers 1
  let defArchVsAtkInf := autoCounterReduction d.groupArchers a.groupInfantry 1
  max 0 (infantryAp * (1 - defArchVsAtkInf) + archerAp * (1 - defCavVsAtkArch)
    + cavAp * (1 - defPikeVsAtkCav))

/-- `_auto_compute_troop_dp` (main.py:993-1022): defense weights, the
flat peasant weight `0.1`, and the counters applied in the opposite
direction. -/
def computeTroopDp (d a : Units) : ℚ :=
  let atkPikeVsDefCav := autoCounterReduction a.groupPike d.groupCavalry (1/4)
  let atkCavVsDefArch := autoCounterReduction a.groupCavalry d.groupArchers 1
  let atkArchVsDefInf := autoCounterReduction a.groupArchers d.groupInfantry 1
  let infantryDp : ℚ := (d.footmen : ℚ) * 1 + (d.pikemen : ℚ) * 2 + (d.elites : ℚ) * 10
  let archerDp : ℚ := (d.archers : ℚ) * 4 + (d.crossbowmen : ℚ) * 2
  let cavDp : ℚ := (d.lightCav : ℚ) * 4 + (d.heavyCav : ℚ) * 5 + (d.knights : ℚ) * 10
  let peasantDp : ℚ := (d.peasants : ℚ) * (1/10)
  max 0 (infantryDp * (1 - atkArchVsDefInf) + archerDp * (1 - atkCavVsDefArch)
    + cavDp * (1 - atkPikeVsDefCav) + peasantDp)

/-- `_auto_extract_land_taken` (main.py:1025-1033): first gain whose key
contains "land" or "acre". -/
def landTakenOf (gains : List (List Char × ℤ)) : Option ℤ :=
  gains.findSome?
    (fun kv =>
      if containsStr "land".data (lowerStr kv.1) || containsStr "acre".data (lowerStr kv.1)
      then some kv.2 else none)

/-! ## The known-hits auto-insert (`_auto_insert_known_hit_for_attack`,
main.py:1036-1103)

The `spy_reports` table row is modelled with the columns the function
reads; timestamps are integers.  `_load_raw_text`'s gzip fallback is not
modelled: a row carries its raw text directly, and the guard is the
source's "empty or whitespace-only raw text" skip.  The SQL selection
`WHERE kingdom = target AND created_at <= attack_created_at ORDER BY
created_at DESC, id DESC LIMIT 1` is a maximum over the filtered rows.
The insert itself is abstracted to the returned row value (`none` = the
function returns without inserting); the constant columns and
`_target_norm` are omitted from the record. -/

structure SpyRow where
  id : ℤ
  createdAt : ℤ
  kingdom : List Char
  raw : List Char
  deriving DecidableEq

def selectSpy (table : List SpyRow) (target : List Char) (t : ℤ) : Option SpyRow :=
  table.foldl
    (fun best r =>
      if r.kingdom = target ∧ r.createdAt ≤ t then
        match best with
        | none => some r
        | some b =>
          if b.createdAt < r.createdAt ∨ (b.createdAt = r.createdAt ∧ b.id < r.id)
          then some r else some b
      else best)
    none

structure KnownHit where
  target : List Char
  rawRatio : ℝ
  actualOutcome : List Char
  atkPower : ℝ
  defDp : ℝ
  landTaken : Option ℤ
  sourceAttackReportId : ℤ

/-- The castle multiplier
`1.0 + (pow(max(0, castles), 0.5) / 100.0 if castles > 0 else 0.0)`. -/
noncomputable def castleMultOf (castles : ℤ) : ℝ :=
  1 + (if 0 < castles then Real.sqrt ((max 0 castles : ℤ) : ℝ) / 100 else 0)

/-- The defender power resolved by the estimator for a given spy parse
and attacker composition: the spy report's observed figure when
positive, else the computed troop power, both times the castle
multiplier. -/
noncomputable def resolvedDefDp (ps : SpyParsed) (aUnits : Units) : ℝ :=
  let dUnits := defenderUnitsFromSpy ps
  let baseDp : ℚ := ((ps.defenderDp.getD 0 : ℤ) : ℚ)
  if 0 < baseDp then (baseDp : ℝ) * castleMultOf (ps.castles.getD 0)
  else ((computeTroopDp dUnits aUnits : ℚ) : ℝ) * castleMultOf (ps.castles.getD 0)

/-- `_auto_insert_known_hit_for_attack` as a pure function from the spy
table and the attack row to the inserted calibration row (or `none`). -/
noncomputable def autoKnownHit (table : List SpyRow) (attackReportId : ℤ)
    (attackCreatedAt : ℤ) (pa : AttackParsed) : Option KnownHit :=
  let target := pyStrip (pa.target.getD [])
  if target = [] then none
  else
    match selectSpy table target attackCreatedAt with
    | none => none
    | some spy =>
      if pyStrip spy.raw = [] then none
      else
        let ps := parseSpyReport spy.raw
        let aUnits := attackUnitsFromCasualties pa.casualties
        let ap := computeAttackPower aUnits (defenderUnitsFromSpy ps)
        let defDp : ℝ := resolvedDefDp ps aUnits
        if defDp ≤ 0 then none
        else
          some
            { target := target
              rawRatio := ((ap : ℚ) : ℝ) / max 1 defDp
              actualOutcome :=
                let r := pyStrip (pa.attackResult.getD [])
                if r = [] then "UNKNOWN".data else r
              atkPower := ((ap : ℚ) : ℝ)
              defDp := defDp
              landTaken := landTakenOf pa.gains
              sourceAttackReportId := attackReportId }

/-! ## Building-effects aggregator (auth_kg.py:557-819)

Percentages and caps are exact rationals.  `round(x, 3)` is modelled as
exact decimal round-half-to-even (Python's rounding acts on the binary
double nearest the value; on the 3-decimal scale of these percentage
figures the exact rule is the faithful reading). -/

structure KGBuilding where
  buildingType : List Char
  level : Option ℤ
  effectText : List Char
  deriving DecidableEq

structure KGSettlement where
  name : List Char
  buildings : List KGBuilding
  deriving DecidableEq

/-- `_is_summary_only_buildings` (auth_kg.py:557-575). -/
def isSummaryOnlyBuildings (bs : List KGBuilding) : Bool :=
  if bs = [] then true
  else if 2 < bs.length then false
  else bs.all (fun b =>
    let bt := lowerStr (pyStrip b.buildingType)
    let et := pyStrip b.effectText
    et = [] && (containsStr "town".data bt || containsStr "city".data bt
      || containsStr "settlement".data bt))

/-- Parse `\d+(?:\.\d+)?` at the start of `s` (the optional fractional
group needs at least one digit after the dot, else it does not match). -/
def pctNumber (s : List Char) : Option (ℚ × List Char) :=
  let ds := s.takeWhile Char.isDigit
  if ds = [] then none
  else
    match s.drop ds.length with
    | '.' :: r2 =>
      let fs := r2.takeWhile Char.isDigit
      if fs = [] then some ((digitsToNat ds : ℚ), '.' :: r2)
      else some (((digitsToNat (ds ++ fs) : ℚ) / (10 : ℚ) ^ fs.length), r2.drop fs.length)
    | r => some ((digitsToNat ds : ℚ), r)

/-- Partial match of the formula pattern
`([+-]?)\s*\[\s*LEVEL\s*x\s*([0-9]+(?:\.\d+)?)\s*\]\s*%` (`re.I`) at the
start of `s`, returning sign × factor. -/
def formulaTry (s : List Char) : Option ℚ :=
  let (sgn, s1) : ℚ × List Char :=
    match s with
    | '-' :: r => (-1, r)
    | '+' :: r => (1, r)
    | r => (1, r)
  match lstripWs s1 with
  | '[' :: r1 =>
    match stripCI "level".data (lstripWs r1) with
    | none => none
    | some r2 =>
      match lstripWs r2 with
      | x :: r3 =>
        if ¬ ciEq 'x' x then none
        else
          match pctNumber (lstripWs r3) with
          | none => none
          | some (f, r4) =>
            match lstripWs r4 with
            | ']' :: r5 =>
              match lstripWs r5 with
              | '%' :: _ => some (sgn * f)
              | _ => none
            | _ => none
      | [] => none
  | _ => none

/-- Partial match of the bare pattern `([+-]?\d+(?:\.\d+)?)\s*%` at the
start of `s`. -/
def plainPctTry (s : List Char) : Option ℚ :=
  let (sgn, s1) : ℚ × List Char :=
    match s with
    | '-' :: r => (-1, r)
    | '+' :: r => (1, r)
    | r => (1, r)
  match pctNumber s1 with
  | none => none
  | some (v, r) =>
    match lstripWs r with
    | '%' :: _ => some (sgn * v)
    | _ => none

/-- `_extract_pct` (auth_kg.py:689-706): prefer the `[LEVELxF]%` formula
(scaled by the level) when the level is positive, else the first bare
percentage. -/
def extractPct (text : List Char) (level : ℤ) : Option ℚ :=
  match scanFirst formulaTry text with
  | some sf => if 0 < level then some (sf * (level : ℚ)) else scanFirst plainPctTry text
  | none => scanFirst plainPctTry text

/-- Partial match of `phrase\s*([+-]?\d+(?:\.\d+)?)\s*%` (`re.I`) at the
start of `s`. -/
def capTry (phrase : List Char) (s : List Char) : Option ℚ :=
  match stripCI phrase s with
  | none => none
  | some r =>
    let (sgn, s1) : ℚ × List Char :=
      match lstripWs r with
      | '-' :: r2 => (-1, r2)
      | '+' :: r2 => (1, r2)
      | r2 => (1, r2)
    match pctNumber s1 with
    | none => none
    | some (v, r3) =>
      match lstripWs r3 with
      | '%' :: _ => some (sgn * v)
      | _ => none

/-- `_extract_cap` (auth_kg.py:709-722): `max effect amount N%` first,
then `max effect N%`. -/
def extractCap (text : List Char) : Option ℚ :=
  match scanFirst (capTry "max effect amount".data) text with
  | some c => some c
  | none => scanFirst (capTry "max effect".data) text

/-- `_effect_key` (auth_kg.py:725-740); takes the stripped building type
and effect text (the catch-all key embeds the original-case type). -/
def effectKeyOf (buildingType effectText : List Char) : List Char × List Char :=
  let bt := lowerStr buildingType
  let et := lowerStr effectText
  if containsStr "food generation".data et || bt = "granary".data then
    ("food_generation_pct".data, "Food generation".data)
  else if containsStr "wood maintenance".data et || bt = "carpenter".data then
    ("wood_maintenance_pct".data, "Wood maintenance".data)
  else if containsStr "stone maintenance".data et || bt = "mason".data then
    ("stone_maintenance_pct".data, "Stone maintenance".data)
  else if containsStr "houses".data et || bt = "housing".data then
    ("house_population_pct".data, "House population".data)
  else if containsStr "stables".data et then
    ("stables_population_pct".data, "Stables population".data)
  else if containsStr "soldiers per barracks".data et then
    ("barracks_soldiers_pct".data, "Barracks soldier count".data)
  else
    ("other:".data ++ buildingType, buildingType ++ " effect".data)

structure EffectSource where
  settlement : List Char
  buildingType : List Char
  level : ℤ
  deltaPct : ℚ
  deriving DecidableEq

structure EffectAcc where
  effectKey : List Char
  label : List Char
  totalPct : ℚ
  capPct : Option ℚ
  buildingCount : ℕ
  sources : List EffectSource
  deriving DecidableEq

/-- One building of the accumulation loop of `_aggregate_effects`
(auth_kg.py:746-788): skip empty types and buildings without a
percentage; add the delta, count and source; merge caps keeping the
stricter bound (minimum of caps when the new cap is non-negative,
maximum when negative). -/
def accStep (totals : List (List Char × EffectAcc)) (sname : List Char)
    (b : KGBuilding) : List (List Char × EffectAcc) :=
  let bt := pyStrip b.buildingType
  if bt = [] then totals
  else
    let et := pyStrip b.effectText
    let level := b.level.getD 0
    match extractPct et level with
    | none => totals
    | some delta =>
      let cap := extractCap et
      let kl := effectKeyOf bt et
      let rec0 : EffectAcc :=
        match dictGet totals kl.1 with
        | some r => r
        | none =>
          { effectKey := kl.1, label := kl.2, totalPct := 0, capPct := cap
            buildingCount := 0, sources := [] }
      let rec1 : EffectAcc :=
        { rec0 with
            totalPct := rec0.totalPct + delta
            buildingCount := rec0.buildingCount + 1
            sources := rec0.sources ++ [⟨sname, bt, level, delta⟩] }
      let rec2 : EffectAcc :=
        match cap with
        | none => rec1
        | some c =>
          match rec1.capPct with
          | none => { rec1 with capPct := some c }
          | some ec =>
            { rec1 with capPct := some (if 0 ≤ c then min ec c else max ec c) }
      dictSet totals kl.1 rec2

def accumulateEffects (settlements : List KGSettlement) :
    List (List Char × EffectAcc) :=
  settlements.foldl
    (fun totals s => s.buildings.foldl (fun ts b => accStep ts s.name b) totals)
    []

/-- Exact decimal round-half-to-even to an integer. -/
def roundHalfEven (q : ℚ) : ℤ :=
  if q - (⌊q⌋ : ℚ) < 1/2 then ⌊q⌋
  else if 1/2 < q - (⌊q⌋ : ℚ) then ⌊q⌋ + 1
  else if Even ⌊q⌋ then ⌊q⌋ else ⌊q⌋ + 1

/-- Model of `round(x, 3)`. -/
def round3 (q : ℚ) : ℚ := ((roundHalfEven (q * 1000) : ℤ) : ℚ) / 1000

structure EffectOut where
  effectKey : List Char
  label : List Char
  totalPct : ℚ
  capPct : Option ℚ
  appliedPct : ℚ
  capReached : Bool
  buildingCount : ℕ
  sources : List EffectSource
  deriving DecidableEq

/-- The emission step of `_aggregate_effects` (auth_kg.py:790-816):
cap-applied value, `cap_reached` flag, and 3-decimal rounding of the
float outputs. -/
def emitEffect (r : EffectAcc) : EffectOut :=
  match r.capPct with
  | none =>
    { effectKey := r.effectKey, label := r.label, totalPct := round3 r.totalPct
      capPct := none, appliedPct := round3 r.totalPct, capReached := false
      buildingCount := r.buildingCount, sources := r.sources }
  | some c =>
    { effectKey := r.effectKey, label := r.label, totalPct := round3 r.totalPct
      capPct := some (round3 c)
      appliedPct := round3 (if 0 ≤ c then min r.totalPct c else max r.totalPct c)
      capReached := if 0 ≤ c then decide (c < r.totalPct) else decide (r.totalPct < c)
      buildingCount := r.buildingCount
      sources := r.sources }

/-- Lexicographic string order on code points, for the final sort by
label. -/
def strLe : List Char → List Char → Bool
  | [], _ => true
  | _ :: _, [] => false
  | a :: as, b :: bs => if a = b then strLe as bs else decide (a < b)

def insertByLabel (x : EffectOut) : List EffectOut → List EffectOut
  | [] => [x]
  | y :: ys => if strLe y.label x.label then y :: insertByLabel x ys else x :: y :: ys

def sortByLabel (l : List EffectOut) : List EffectOut :=
  l.foldl (fun acc x => insertByLabel x acc) []

/-- `_aggregate_effects`. -/
def aggregateEffects (settlements : List KGSettlement) : List EffectOut :=
  sortByLabel ((accumulateEffects settlements).map (fun kv => emitEffect kv.2))

/-! ## Claim-side predicates and concrete test inputs -/

/-- The claim-side reading of "a line of the form `Target: <value>`
(case-insensitive, allowing surrounding whitespace)": a line the
labeled-line pattern matches, i.e. `ws* label ws* ':' rest` with a
nonempty rest. -/
def hasLabeledLine (text label : List Char) : Bool :=
  (linesOf text).any (fun l => (lineLabelValue label l).isSome)

/-- Claim-side reading of "some line has the form
`Subject: Attack Report: <name>`". -/
def hasSubjectAttackLine (text : List Char) : Bool :=
  (linesOf text).any (fun l => (lineSubjectTarget l).isSome)

/-- The levels parsed for one research name over the lines of the
technology section, in order. -/
def researchLevelsSeen (name : List Char) (ls : List (List Char)) : List ℤ :=
  (ls.filterMap researchLineLevel).filterMap
    (fun kv => if kv.1 = name then some kv.2 else none)

def granaryEffectText : List Char :=
  "+[LEVELx5]% Food generation, max effect amount 50%".data

def granary46 : List KGSettlement :=
  [⟨"S1".data, [⟨"Granary".data, some 4, granaryEffectText⟩,
                ⟨"Granary".data, some 6, granaryEffectText⟩]⟩]

def granary47 : List KGSettlement :=
  [⟨"S1".data, [⟨"Granary".data, some 4, granaryEffectText⟩,
                ⟨"Granary".data, some 7, granaryEffectText⟩]⟩]

/-- The accumulated food-generation record that `granary46` produces
(levels 4 and 6 contribute 20 and 30). -/
def granaryAcc46 : EffectAcc :=
  { effectKey := "food_generation_pct".data
    label := "Food generation".data
    totalPct := 50
    capPct := some 50
    buildingCount := 2
    sources := [⟨"S1".data, "Granary".data, 4, 20⟩, ⟨"S1".data, "Granary".data, 6, 30⟩] }

def horseBreedingDoc : List Char :=
  ("Target: Avalon\nThe following technology information was also discovered:\n"
    ++ "Horse Breeding Lv 5\nSiege Craft Lv 2\nHorse Breeding Lv 3").data

def troopsPseudoKeyDoc : List Char :=
  "Target: Avalon".data ++ ['\n'] ++ troopsHeader
    ++ "\nFootmen: 500\nPopulation (incl military): 999\nTotal Defensive Power: 123".data

def attackOnlyDoc : List Char := "Attack Report: Bob (NW: +1)".data

/-- A text whose `Target:` line carries no value on its own line; the
greedy whitespace run of the labeled-line pattern crosses the newline,
so the extracted target is the content of the following line. -/
def targetNextLineDoc : List Char := "Target:\nAvalon".data

def subjectOnlyDoc : List Char :=
  "Subject: Attack Report: Villain\nAttack Result: Win".data

def plainDoc : List Char := "hello world".data

def witnessSpyRaw : List Char :=
  "Target: Avalon\nApproximate defensive power*: 1,000".data

def witnessSpyTable : List SpyRow := [⟨1, 0, "Avalon".data, witnessSpyRaw⟩]

def witnessAttack : AttackParsed :=
  { target := some "Avalon".data
    targetNetworth := none
    attackResult := some "WIN".data
    gains := [("land".data, 100)]
    casualties := [("Footmen".data, 50, 60)] }

/-- The calibration row the estimator produces for `witnessSpyTable` and
`witnessAttack`, written as the pipeline expressions it is built from
(attack power 60 from 60 sent footmen, defender power the observed
1,000 figure at castle multiplier 1). -/
noncomputable def witnessKH : KnownHit :=
  { target := pyStrip (witnessAttack.target.getD [])
    rawRatio :=
      ((computeAttackPower (attackUnitsFromCasualties witnessAttack.casualties)
          (defenderUnitsFromSpy (parseSpyReport witnessSpyRaw)) : ℚ) : ℝ)
        / max 1 (resolvedDefDp (parseSpyReport witnessSpyRaw)
            (attackUnitsFromCasualties witnessAttack.casualties))
    actualOutcome := pyStrip (witnessAttack.attackResult.getD [])
    atkPower :=
      ((computeAttackPower (attackUnitsFromCasualties witnessAttack.casualties)
          (defenderUnitsFromSpy (parseSpyReport witnessSpyRaw)) : ℚ) : ℝ)
    defDp := resolvedDefDp (parseSpyReport witnessSpyRaw)
        (attackUnitsFromCasualties witnessAttack.casualties)
    landTaken := landTakenOf witnessAttack.gains
    sourceAttackReportId := 7 }

end ReconHub

namespace ReconHub

/-- C1: the counter-reduction factor equals
`clamp(0.25 * (c / (t * r)), 0, 0.40)` when `c > 0`, `t > 0`, `r > 0`,
and `0` otherwise; and with need ratio `0.25` (pikemen countering
cavalry) the reduction never exceeds `0.40`, no matter how the counts
compare. -/
theorem counter_reduction_clamped :
    (∀ (c t : ℤ) (r : ℚ),
      autoCounterReduction c t r =
        if 0 < c ∧ 0 < t ∧ 0 < r
        then clampSpec ((1/4 : ℚ) * ((c : ℚ) / ((t : ℚ) * r))) 0 (2/5)
        else 0) ∧
    (∀ (cav pike : ℤ), autoCounterReduction pike cav (1/4) ≤ 2/5) := by
  constructor
  · intro c t r
    unfold autoCounterReduction clampSpec
    by_cases hpos : 0 < c ∧ 0 < t ∧ 0 < r
    · obtain ⟨hc, ht, hr⟩ := hpos
      have hcond : ¬ ((c : ℚ) ≤ 0 ∨ (t : ℚ) ≤ 0 ∨ r ≤ 0) := by
        push_neg
        exact ⟨by exact_mod_cast hc, by exact_mod_cast ht, hr⟩
      have hne : ¬ ((t : ℚ) * r ≤ 0) := by
        push_neg
        exact mul_pos (by exact_mod_cast ht) hr
      rw [if_neg hcond, if_neg hne, if_pos ⟨hc, ht, hr⟩]
    · have hcond : (c : ℚ) ≤ 0 ∨ (t : ℚ) ≤ 0 ∨ r ≤ 0 := by
        rcases not_and_or.mp hpos with h | h
        · exact Or.inl (by exact_mod_cast not_lt.mp h)
        · rcases not_and_or.mp h with h2 | h2
          · exact Or.inr (Or.inl (by exact_mod_cast not_lt.mp h2))
          · exact Or.inr (Or.inr (not_lt.mp h2))
      rw [if_pos hcond, if_neg hpos]
  · intro cav pike
    unfold autoCounterReduction
    by_cases h1 : (pike : ℚ) ≤ 0 ∨ (cav : ℚ) ≤ 0 ∨ (1/4 : ℚ) ≤ 0
    · rw [if_pos h1]; norm_num
    · rw [if_neg h1]
      by_cases h2 : (cav : ℚ) * (1/4) ≤ 0
      · rw [if_pos h2]; norm_num
      · rw [if_neg h2]
        exact max_le (by norm_num) (min_le_left _ _)

end ReconHub

namespace ReconHub

section EvalFacts

set_option allowUnsafeReducibility true
attribute [local semireducible] Rat.add Rat.mul Rat.inv Rat.sub Rat.ofScientific

/-- C5: the integer parser strips thousands separators, tolerates
scientific notation, returns `none` on empty input, and returns `none`
(rather than failing) on every input whose cleaned form is not a float
literal. -/
theorem num_tolerant_parsing :
    numOf "1,234,567".data = some 1234567 ∧
    numOf "1.05728e+006".data = some 1057280 ∧
    numOf "".data = none ∧
    ∀ s : List Char, floatOfChars (stripNumJunk s) = none → numOf s = none := by
  refine ⟨by decide, by decide, by decide, ?_⟩
  intro s h
  by_cases he : stripNumJunk s = []
  · simp [numOf, he]
  · simp [numOf, he, h]

theorem num_tolerant_parsing_witness :
    floatOfChars (stripNumJunk "abc".data) = none ∧ numOf "abc".data = none :=
  ⟨by decide, num_tolerant_parsing.2.2.2 "abc".data (by decide)⟩

/-- C7: for every input text, the troops map of the parsed spy report
contains no key starting with "population" (case-insensitively) and
none containing "defensive power". -/
theorem troops_exclude_pseudo_keys (text : List Char) :
    ∀ kv ∈ (parseSpyReport text).troops,
      startsWithStr "population".data (lowerStr kv.1) = false ∧
      containsStr "defensive power".data (lowerStr kv.1) = false := by
  intro kv hkv
  have h2 : kv ∈ (parseKvLines (sectionOf text troopsHeader troopsStops)).filter
      (fun kv => ! isPseudoTroopKey kv.1) := hkv
  obtain ⟨-, hp⟩ := List.mem_filter.mp h2
  have hfalse : isPseudoTroopKey kv.1 = false := by
    cases hiso : isPseudoTroopKey kv.1
    · rfl
    · rw [hiso] at hp; exact absurd hp (by decide)
  unfold isPseudoTroopKey at hfalse
  have := Bool.or_eq_false_iff.mp hfalse
  exact ⟨this.1, this.2⟩

theorem troops_exclude_pseudo_keys_witness :
    ("Footmen".data, (500 : ℤ)) ∈ (parseSpyReport troopsPseudoKeyDoc).troops ∧
    (startsWithStr "population".data (lowerStr "Footmen".data) = false ∧
     containsStr "defensive power".data (lowerStr "Footmen".data) = false) :=
  ⟨by decide, troops_exclude_pseudo_keys troopsPseudoKeyDoc ("Footmen".data, (500 : ℤ))
    (by decide)⟩

/-- C9: a settlement whose building list is exactly one "Large Town"
entry with empty effect text is summary-only; a settlement with two
buildings that both carry non-empty effect text is not. -/
theorem summary_only_buildings_cases :
    (∀ lvl : Option ℤ,
      isSummaryOnlyBuildings [⟨"Large Town".data, lvl, []⟩] = true) ∧
    (∀ b1 b2 : KGBuilding, pyStrip b1.effectText ≠ [] → pyStrip b2.effectText ≠ [] →
      isSummaryOnlyBuildings [b1, b2] = false) := by
  constructor
  · intro lvl; rfl
  · intro b1 b2 h1 h2
    unfold isSummaryOnlyBuildings
    rw [if_neg (by simp), if_neg (by simp)]
    have hd1 : decide (pyStrip b1.effectText = []) = false := by
      simpa using h1
    simp [List.all_cons, hd1]

theorem roundHalfEven_mono : Monotone roundHalfEven := by
  intro x y hxy
  unfold roundHalfEven
  have hf : ⌊x⌋ ≤ ⌊y⌋ := Int.floor_le_floor hxy
  rcases lt_or_eq_of_le hf with hlt | heq
  · have hxu : (if x - (⌊x⌋ : ℚ) < 1/2 then ⌊x⌋
        else if 1/2 < x - (⌊x⌋ : ℚ) then ⌊x⌋ + 1
        else if Even ⌊x⌋ then ⌊x⌋ else ⌊x⌋ + 1) ≤ ⌊x⌋ + 1 := by
      split_ifs <;> omega
    have hyl : ⌊y⌋ ≤ (if y - (⌊y⌋ : ℚ) < 1/2 then ⌊y⌋
        else if 1/2 < y - (⌊y⌋ : ℚ) then ⌊y⌋ + 1
        else if Even ⌊y⌋ then ⌊y⌋ else ⌊y⌋ + 1) := by
      split_ifs <;> omega
    omega
  · rw [← heq]
    have hr : x - (⌊x⌋ : ℚ) ≤ y - (⌊x⌋ : ℚ) := by linarith
    split_ifs <;> first | omega | linarith

theorem round3_mono : Monotone round3 := by
  intro x y hxy
  unfold round3
  have h1 : roundHalfEven (x * 1000) ≤ roundHalfEven (y * 1000) :=
    roundHalfEven_mono (by nlinarith)
  rw [div_le_div_iff_of_pos_right (by norm_num : (0:ℚ) < 1000)]
  exact_mod_cast h1

theorem round3_min (a b : ℚ) : round3 (min a b) = min (round3 a) (round3 b) :=
  round3_mono.map_min

/-- C6: whenever the merged cap of an accumulated effect is present and
non-negative, the emitted record's applied percentage is the minimum of
its (emitted) total and cap, and the cap-reached flag is set exactly
when the accumulated total strictly exceeds the cap; and the granary
example behaves as specified at the boundary and one level above it. -/
theorem effect_cap_min_and_flag :
    (∀ (ss : List KGSettlement) (kv : List Char × EffectAcc) (c : ℚ),
      kv ∈ accumulateEffects ss → kv.2.capPct = some c → 0 ≤ c →
        (emitEffect kv.2).capPct = some (round3 c) ∧
        (emitEffect kv.2).appliedPct = min (emitEffect kv.2).totalPct (round3 c) ∧
        ((emitEffect kv.2).capReached = true ↔ c < kv.2.totalPct)) ∧
    ((aggregateEffects granary46).map
        (fun r => (r.effectKey, r.totalPct, r.capPct, r.appliedPct, r.capReached)) =
      [("food_generation_pct".data, 50, some 50, 50, false)] ∧
     (aggregateEffects granary47).map
        (fun r => (r.effectKey, r.totalPct, r.capPct, r.appliedPct, r.capReached)) =
      [("food_generation_pct".data, 55, some 50, 50, true)]) := by
  constructor
  · intro ss kv c _ hcap hc
    obtain ⟨k, r⟩ := kv
    obtain ⟨ek, lb, tot, cp, bc, srcs⟩ := r
    simp only at hcap
    subst hcap
    refine ⟨by simp [emitEffect], ?_, ?_⟩
    · show round3 (if 0 ≤ c then min tot c else max tot c)
        = min (round3 tot) (round3 c)
      rw [if_pos hc]
      exact round3_min tot c
    · show (if 0 ≤ c then decide (c < tot) else decide (tot < c)) = true ↔ c < tot
      rw [if_pos hc]
      simp
  · exact ⟨by decide, by decide⟩

theorem effect_cap_min_and_flag_witness :
    (("food_generation_pct".data, granaryAcc46) ∈ accumulateEffects granary46
      ∧ granaryAcc46.capPct = some 50 ∧ (0:ℚ) ≤ 50) ∧
    ((emitEffect granaryAcc46).capPct = some (round3 50) ∧
     (emitEffect granaryAcc46).appliedPct
       = min (emitEffect granaryAcc46).totalPct (round3 50) ∧
     ((emitEffect granaryAcc46).capReached = true ↔ (50:ℚ) < granaryAcc46.totalPct)) :=
  ⟨⟨by decide, rfl, by norm_num⟩,
   effect_cap_min_and_flag.1 granary46 ("food_generation_pct".data, granaryAcc46) 50
     (by decide) rfl (by norm_num)⟩

/-! Dictionary lemmas for the research-level fold. -/

theorem dictGet_dictSet_self {α : Type} (d : List (List Char × α)) (k : List Char)
    (v : α) : dictGet (dictSet d k v) k = some v := by
  induction d with
  | nil => simp [dictGet, dictSet]
  | cons kv rest ih =>
    obtain ⟨k', v'⟩ := kv
    by_cases h : k' = k
    · simp [dictGet, dictSet, h]
    · simp [dictGet, dictSet, h, ih]

theorem dictGet_dictSet_ne {α : Type} (d : List (List Char × α)) (k k' : List Char)
    (v : α) (h : k ≠ k') : dictGet (dictSet d k v) k' = dictGet d k' := by
  induction d with
  | nil => simp [dictGet, dictSet, h]
  | cons kv rest ih =>
    obtain ⟨k0, v0⟩ := kv
    by_cases h0 : k0 = k
    · subst h0
      simp [dictGet, dictSet, h]
    · simp [dictGet, dictSet, h0, ih]

theorem researchLineBody_pos (line n : List Char) (v : ℤ)
    (h : researchLineBody line = some (n, v)) : 1 ≤ v := by
  unfold researchLineBody at h
  split at h
  · exact absurd h (by simp)
  · split at h
    · split at h
      · exact absurd h (by simp)
      · rename_i lvl hform hcond
        injection h with h'
        have h2 := congrArg Prod.snd h'
        simp only at h2
        omega
    · split at h
      · split at h
        · exact absurd h (by simp)
        · rename_i lvl hform hcond
          injection h with h'
          have h2 := congrArg Prod.snd h'
          simp only at h2
          omega
      · exact absurd h (by simp)

theorem researchLineLevel_pos (raw n : List Char) (v : ℤ)
    (h : researchLineLevel raw = some (n, v)) : 1 ≤ v :=
  researchLineBody_pos _ n v h

theorem research_fold_get (ls : List (List Char)) (d : List (List Char × ℤ))
    (name : List Char) :
    dictGet (ls.foldl researchStep d) name =
      if researchLevelsSeen name ls = [] then dictGet d name
      else some ((researchLevelsSeen name ls).foldl max ((dictGet d name).getD 0)) := by
  induction ls generalizing d with
  | nil => simp [researchLevelsSeen]
  | cons l ls ih =>
    rw [List.foldl_cons]
    cases hp : researchLineLevel l with
    | none =>
      have hstep : researchStep d l = d := by
        simp only [researchStep, hp]
      have hseen : researchLevelsSeen name (l :: ls) = researchLevelsSeen name ls := by
        unfold researchLevelsSeen
        rw [List.filterMap_cons_none hp]
      rw [hstep, hseen, ih]
    | some nv =>
      obtain ⟨n, v⟩ := nv
      by_cases hn : n = name
      · subst hn
        have hv : 1 ≤ v := researchLineLevel_pos l n v hp
        have hseen : researchLevelsSeen n (l :: ls) = v :: researchLevelsSeen n ls := by
          unfold researchLevelsSeen
          rw [List.filterMap_cons_some hp]
          simp
        have hget : dictGet (researchStep d l) n
            = some (max ((dictGet d n).getD 0) v) := by
          simp only [researchStep, hp]
          split
          · rename_i hlt
            rw [dictGet_dictSet_self]
            congr 1
            omega
          · rename_i hge
            cases hd : dictGet d n with
            | none =>
              rw [hd] at hge
              simp at hge
              omega
            | some p =>
              rw [hd] at hge
              simp only [Option.getD_some] at hge ⊢
              congr 1
              omega
        rw [ih, hget, hseen]
        simp only [List.foldl_cons, Option.getD_some]
        split
        · rename_i hnil
          rw [hnil]
          simp
        · rfl
      · have hseen : researchLevelsSeen name (l :: ls) = researchLevelsSeen name ls := by
          unfold researchLevelsSeen
          rw [List.filterMap_cons_some hp]
          simp [hn]
        have hget : dictGet (researchStep d l) name = dictGet d name := by
          simp only [researchStep, hp]
          split
          · exact dictGet_dictSet_ne d n name v hn
          · rfl
        rw [ih, hget, hseen]

/-- C8: the research-level map of a parsed spy report assigns to each
name the maximum level among all parsed occurrences in the technology
section (and is undefined for names with no occurrence); in particular
"Horse Breeding Lv 5" followed by "Horse Breeding Lv 3" yields 5. -/
theorem research_levels_max_wins :
    (∀ (text name : List Char),
      dictGet (parseSpyReport text).researchLevels name =
        if researchLevelsSeen name (researchSectionOf text) = [] then none
        else some ((researchLevelsSeen name (researchSectionOf text)).foldl max 0)) ∧
    dictGet (parseSpyReport horseBreedingDoc).researchLevels "Horse Breeding".data
      = some 5 := by
  constructor
  · intro text name
    have hrl : (parseSpyReport text).researchLevels = parseResearchLevels text := rfl
    rw [hrl]
    unfold parseResearchLevels
    rw [research_fold_get]
    simp [dictGet]
  · decide

theorem summary_only_buildings_cases_witness :
    isSummaryOnlyBuildings [⟨"Large Town".data, some 3, []⟩] = true ∧
    isSummaryOnlyBuildings [⟨"Granary".data, some 1, "+5% food".data⟩,
      ⟨"Mason".data, some 2, "+1% stone".data⟩] = false :=
  ⟨summary_only_buildings_cases.1 (some 3),
   summary_only_buildings_cases.2 _ _ (by decide) (by decide)⟩

/-! Infrastructure: a line predicate that is stable under prepending and
appending whitespace to a line is preserved from the stripped text back
to the original text (stripping only deletes all-whitespace lines and
whitespace at the edges of the first and last line). -/

theorem stripCI_append_right :
    ∀ (pat s t r : List Char), stripCI pat s = some r →
      stripCI pat (s ++ t) = some (r ++ t) := by
  intro pat
  induction pat with
  | nil =>
    intro s t r h
    simp only [stripCI] at h ⊢
    injection h with h
    rw [h]
  | cons p ps ih =>
    intro s t r h
    cases s with
    | nil => simp [stripCI] at h
    | cons c cs =>
      simp only [stripCI, List.cons_append] at h ⊢
      split at h
      · rename_i hci
        rw [if_pos hci]
        exact ih cs t r h
      · exact absurd h (by simp)

theorem dropWhile_append_ne (p : Char → Bool) (l t : List Char)
    (h : l.dropWhile p ≠ []) : (l ++ t).dropWhile p = l.dropWhile p ++ t := by
  induction l with
  | nil => simp at h
  | cons c cs ih =>
    cases hpc : p c with
    | true =>
      have h' : cs.dropWhile p ≠ [] := by
        rw [List.dropWhile_cons, hpc] at h
        simpa using h
      simp only [List.cons_append, List.dropWhile_cons, hpc, if_true]
      exact ih h'
    | false =>
      simp [List.cons_append, List.dropWhile_cons, hpc]

theorem lstripWs_append_ne (l t : List Char) (h : lstripWs l ≠ []) :
    lstripWs (l ++ t) = lstripWs l ++ t :=
  dropWhile_append_ne isWsChar l t h

theorem linesAux_ws_only (P : List Char → Bool)
    (hright : ∀ l c, isWsChar c = true → P l = true → P (l ++ [c]) = true) :
    ∀ (w acc : List Char), w.all isWsChar = true → P acc = true →
      (linesAux acc w).any P = true := by
  intro w
  induction w with
  | nil =>
    intro acc _ hacc
    simp [linesAux, hacc]
  | cons c w ih =>
    intro acc hall hacc
    simp only [List.all_cons, Bool.and_eq_true] at hall
    unfold linesAux
    split
    · simp [List.any_cons, hacc]
    · exact ih (acc ++ [c]) hall.2 (hright acc c hall.1 hacc)

theorem anyP_append_ws (P : List Char → Bool)
    (hright : ∀ l c, isWsChar c = true → P l = true → P (l ++ [c]) = true) :
    ∀ (u acc w : List Char), w.all isWsChar = true →
      (linesAux acc u).any P = true → (linesAux acc (u ++ w)).any P = true := by
  intro u
  induction u with
  | nil =>
    intro acc w hw h
    simp only [linesAux, List.any_cons, List.any_nil, Bool.or_false] at h
    simpa using linesAux_ws_only P hright w acc hw h
  | cons c cs ih =>
    intro acc w hw h
    simp only [List.cons_append]
    unfold linesAux at h ⊢
    by_cases hc : c = '\n'
    · rw [if_pos hc] at h ⊢
      simp only [List.any_cons, Bool.or_eq_true] at h ⊢
      rcases h with h | h
      · exact Or.inl h
      · exact Or.inr (ih [] w hw h)
    · rw [if_neg hc] at h ⊢
      exact ih (acc ++ [c]) w hw h

theorem P_prepend_ws (P : List Char → Bool)
    (hleft : ∀ c l, isWsChar c = true → P l = true → P (c :: l) = true) :
    ∀ (w a : List Char), w.all isWsChar = true → P a = true → P (w ++ a) = true := by
  intro w
  induction w with
  | nil => intro a _ ha; simpa using ha
  | cons c w ih =>
    intro a hall ha
    simp only [List.all_cons, Bool.and_eq_true] at hall
    simpa using hleft c (w ++ a) hall.1 (ih a hall.2 ha)

theorem anyP_acc_ws (P : List Char → Bool)
    (hleft : ∀ c l, isWsChar c = true → P l = true → P (c :: l) = true) :
    ∀ (u a w₀ : List Char), w₀.all isWsChar = true →
      (linesAux a u).any P = true → (linesAux (w₀ ++ a) u).any P = true := by
  intro u
  induction u with
  | nil =>
    intro a w₀ hw h
    simp only [linesAux, List.any_cons, List.any_nil, Bool.or_false] at h ⊢
    exact P_prepend_ws P hleft w₀ a hw h
  | cons c cs ih =>
    intro a w₀ hw h
    unfold linesAux at h ⊢
    by_cases hc : c = '\n'
    · rw [if_pos hc] at h ⊢
      simp only [List.any_cons, Bool.or_eq_true] at h ⊢
      rcases h with h | h
      · exact Or.inl (P_prepend_ws P hleft w₀ a hw h)
      · exact Or.inr h
    · rw [if_neg hc] at h ⊢
      have heq : w₀ ++ a ++ [c] = w₀ ++ (a ++ [c]) := by simp
      rw [heq]
      exact ih (a ++ [c]) w₀ hw h

theorem anyP_prepend_ws_text (P : List Char → Bool)
    (hleft : ∀ c l, isWsChar c = true → P l = true → P (c :: l) = true) :
    ∀ (w u acc : List Char), w.all isWsChar = true → acc.all isWsChar = true →
      (linesAux [] u).any P = true → (linesAux acc (w ++ u)).any P = true := by
  intro w
  induction w with
  | nil =>
    intro u acc _ hacc h
    have := anyP_acc_ws P hleft u [] acc hacc h
    simpa using this
  | cons c w ih =>
    intro u acc hw hacc h
    simp only [List.all_cons, Bool.and_eq_true] at hw
    simp only [List.cons_append]
    unfold linesAux
    by_cases hc : c = '\n'
    · rw [if_pos hc]
      simp only [List.any_cons, Bool.or_eq_true]
      exact Or.inr (ih u [] hw.2 (by simp) h)
    · rw [if_neg hc]
      exact ih u (acc ++ [c]) hw.2 (by simp [hacc, hw.1]) h

theorem lstrip_strip_append (t : List Char) :
    ∃ w : List Char, lstripWs t = pyStrip t ++ w ∧ w.all isWsChar = true := by
  refine ⟨((lstripWs t).reverse.takeWhile isWsChar).reverse, ?_, by simp⟩
  have hsplit := List.takeWhile_append_dropWhile isWsChar (lstripWs t).reverse
  calc lstripWs t = ((lstripWs t).reverse).reverse := by rw [List.reverse_reverse]
    _ = ((lstripWs t).reverse.takeWhile isWsChar
          ++ (lstripWs t).reverse.dropWhile isWsChar).reverse := by rw [hsplit]
    _ = pyStrip t ++ ((lstripWs t).reverse.takeWhile isWsChar).reverse := by
          rw [List.reverse_append]; rfl

/-- A whitespace-stable line predicate that holds on some line of the
stripped text holds on some line of the text itself. -/
theorem anyLine_of_strip (P : List Char → Bool)
    (hleft : ∀ c l, isWsChar c = true → P l = true → P (c :: l) = true)
    (hright : ∀ l c, isWsChar c = true → P l = true → P (l ++ [c]) = true)
    (t : List Char) (h : (linesOf (pyStrip t)).any P = true) :
    (linesOf t).any P = true := by
  obtain ⟨w, hw, hwall⟩ := lstrip_strip_append t
  have h1 : (linesOf (lstripWs t)).any P = true := by
    unfold linesOf at h ⊢
    rw [hw]
    exact anyP_append_ws P hright (pyStrip t) [] w hwall h
  have h2 : (linesOf (t.takeWhile isWsChar ++ lstripWs t)).any P = true :=
    anyP_prepend_ws_text P hleft (t.takeWhile isWsChar) (lstripWs t) []
      (by simp) (by simp) h1
  rwa [show t.takeWhile isWsChar ++ lstripWs t = t from
    List.takeWhile_append_dropWhile isWsChar t] at h2

/-! Whitespace stability of the two line predicates used by the
classifier and the labeled-line matcher. -/

theorem lineStartsLabel_ws_cons (pat : List Char) (c : Char) (l : List Char)
    (hc : isWsChar c = true) :
    lineStartsLabel pat (c :: l) = lineStartsLabel pat l := by
  unfold lineStartsLabel startsCI
  rw [show lstripWs (c :: l) = lstripWs l from by
    unfold lstripWs; rw [List.dropWhile_cons, hc]; rfl]

theorem lineStartsLabel_append (pat : List Char) (hne : pat ≠ [])
    (l : List Char) (c : Char) (h : lineStartsLabel pat l = true) :
    lineStartsLabel pat (l ++ [c]) = true := by
  unfold lineStartsLabel startsCI at h ⊢
  cases hs : stripCI pat (lstripWs l) with
  | none => rw [hs] at h; simp at h
  | some r =>
    have hl1 : lstripWs l ≠ [] := by
      intro hemp
      rw [hemp] at hs
      cases pat with
      | nil => exact hne rfl
      | cons p ps => simp [stripCI] at hs
    rw [lstripWs_append_ne l [c] hl1,
      stripCI_append_right _ (lstripWs l) [c] r hs]
    rfl

theorem anyLabel_of_strip (pat t : List Char) (hne : pat ≠ [])
    (h : (linesOf (pyStrip t)).any (lineStartsLabel pat) = true) :
    (linesOf t).any (lineStartsLabel pat) = true := by
  refine anyLine_of_strip _ ?_ ?_ t h
  · intro c l hc hp
    rwa [lineStartsLabel_ws_cons pat c l hc]
  · intro l c hc hp
    exact lineStartsLabel_append pat hne l c hp

theorem isAttackText_of_strip (t : List Char)
    (h : isAttackText (pyStrip t) = true) : isAttackText t = true := by
  have h2 : (linesOf (pyStrip t)).any (lineStartsLabel attackReportLabel) = true := h
  have h3 := anyLabel_of_strip attackReportLabel t (by decide) h2
  exact h3

/-! Soundness of the flat line-start scans against the per-line reading:
a case-insensitive literal without newlines that matches after the
whitespace skip of some line-start suffix must sit, together with the
whitespace preceding it, inside a single line; conversely every line is
the head of some line-start suffix.  These lemmas let the claims, which
speak about lines, govern the document-level matchers. -/

theorem linesAux_cons (acc : List Char) (c : Char) (cs : List Char) :
    linesAux acc (c :: cs) =
      if c = '\n' then acc :: linesAux [] cs else linesAux (acc ++ [c]) cs := rfl

theorem lineTailsGo_cons (c : Char) (cs : List Char) :
    lineTailsGo (c :: cs) =
      if c = '\n' then cs :: lineTailsGo cs else lineTailsGo cs := rfl

theorem stripCI_isSuffix :
    ∀ (pat s r : List Char), stripCI pat s = some r → r <:+ s := by
  intro pat
  induction pat with
  | nil =>
    intro s r h
    simp only [stripCI] at h
    injection h with h
    rw [← h]
  | cons p ps ih =>
    intro s r h
    cases s with
    | nil => simp [stripCI] at h
    | cons c cs =>
      simp only [stripCI] at h
      split at h
      · exact (ih cs r h).trans (List.suffix_cons c cs)
      · exact absurd h (by simp)

theorem lstripWs_isSuffix (s : List Char) : lstripWs s <:+ s :=
  ⟨s.takeWhile isWsChar, List.takeWhile_append_dropWhile isWsChar s⟩

/-- A pattern none of whose characters matches a newline cannot consume
past a newline boundary: if it matches a prefix of `x ++ y` where `y` is
empty or starts with a newline, it already matches a prefix of `x`. -/
theorem stripCI_newline_barrier :
    ∀ (pat x y r : List Char), (∀ p ∈ pat, ciEq p '\n' = false) →
      (y = [] ∨ ∃ ys, y = '\n' :: ys) →
      stripCI pat (x ++ y) = some r → startsCI pat x = true := by
  intro pat
  induction pat with
  | nil =>
    intro x y r _ _ _
    simp [startsCI, stripCI]
  | cons p ps ih =>
    intro x y r hnl hy h
    cases x with
    | nil =>
      exfalso
      rcases hy with hy | ⟨ys, hy⟩
      · rw [hy] at h
        simp [stripCI] at h
      · rw [hy] at h
        simp only [List.nil_append, stripCI] at h
        rw [hnl p (by simp)] at h
        simp at h
    | cons c cx =>
      simp only [List.cons_append, stripCI] at h
      split at h
      · rename_i hci
        have hrec := ih cx y r (fun q hq => hnl q (List.mem_cons_of_mem p hq)) hy h
        unfold startsCI at hrec ⊢
        simp only [stripCI]
        rw [if_pos hci]
        exact hrec
      · exact absurd h (by simp)

theorem dropWhile_head_not (p : Char → Bool) :
    ∀ (t : List Char) (r : Char) (rs : List Char), t.dropWhile p = r :: rs →
      p r = false := by
  intro t
  induction t with
  | nil => intro r rs h; simp at h
  | cons c cs ih =>
    intro r rs h
    rw [List.dropWhile_cons] at h
    cases hpc : p c with
    | true =>
      rw [hpc] at h
      simp only [if_true] at h
      exact ih r rs h
    | false =>
      rw [hpc] at h
      simp only [Bool.false_eq_true, if_false] at h
      injection h with h1 h2
      rw [← h1]
      exact hpc

theorem linesAux_acc_structure :
    ∀ (t acc : List Char), ∃ h tl, linesAux [] t = h :: tl ∧
      linesAux acc t = (acc ++ h) :: tl := by
  intro t
  induction t with
  | nil =>
    intro acc
    exact ⟨[], [], rfl, by simp [linesAux]⟩
  | cons c cs ih =>
    intro acc
    by_cases hc : c = '\n'
    · refine ⟨[], linesAux [] cs, ?_, ?_⟩
      · rw [linesAux_cons, if_pos hc]
      · rw [linesAux_cons, if_pos hc]
        simp
    · obtain ⟨h, tl, h1, h2⟩ := ih (acc ++ [c])
      have h3 : linesAux [c] cs = ([c] ++ h) :: tl := by
        obtain ⟨h0, tl0, h01, h02⟩ := ih [c]
        rw [h1] at h01
        injection h01 with ha hb
        rw [h02, ← ha, ← hb]
      refine ⟨c :: h, tl, ?_, ?_⟩
      · show linesAux [] (c :: cs) = (c :: h) :: tl
        rw [linesAux_cons, if_neg hc]
        simpa using h3
      · show linesAux acc (c :: cs) = (acc ++ (c :: h)) :: tl
        rw [linesAux_cons, if_neg hc, h2]
        simp

theorem linesOf_first (t : List Char) :
    ∃ tl, linesOf t = (t.takeWhile (fun c => ¬ c = '\n')) :: tl := by
  induction t with
  | nil => exact ⟨[], rfl⟩
  | cons c cs ih =>
    by_cases hc : c = '\n'
    · refine ⟨linesOf cs, ?_⟩
      have htw : (c :: cs).takeWhile (fun c => ¬ c = '\n') = [] := by
        rw [List.takeWhile_cons]
        simp [hc]
      rw [htw]
      show linesAux [] (c :: cs) = [] :: linesAux [] cs
      rw [linesAux_cons, if_pos hc]
    · obtain ⟨tl, htl⟩ := ih
      obtain ⟨h, tl2, h1, h2⟩ := linesAux_acc_structure cs [c]
      have hh : h = cs.takeWhile (fun c => ¬ c = '\n') := by
        have hcomb := (htl.symm.trans h1 :
          (cs.takeWhile (fun c => ¬ c = '\n')) :: tl = h :: tl2)
        injection hcomb with ha hb
        rw [← ha]
      refine ⟨tl2, ?_⟩
      have htw : (c :: cs).takeWhile (fun c => ¬ c = '\n')
          = c :: cs.takeWhile (fun c => ¬ c = '\n') := by
        rw [List.takeWhile_cons]
        simp [hc]
      rw [htw]
      show linesAux [] (c :: cs) = (c :: cs.takeWhile (fun c => ¬ c = '\n')) :: tl2
      rw [linesAux_cons, if_neg hc,
        show ([] : List Char) ++ [c] = [c] from rfl, h2, hh]
      simp

/-- A successful case-insensitive label match after the whitespace skip
of a document suffix forces some line of that suffix to start (after
optional whitespace) with the label. -/
theorem stripCI_lstrip_line (pat : List Char) (hne : pat ≠ [])
    (hnl : ∀ p ∈ pat, ciEq p '\n' = false) :
    ∀ (t r : List Char), stripCI pat (lstripWs t) = some r →
      (linesOf t).any (lineStartsLabel pat) = true := by
  intro t
  induction t with
  | nil =>
    intro r h
    cases pat with
    | nil => exact absurd rfl hne
    | cons p ps => simp [lstripWs, stripCI] at h
  | cons c cs ih =>
    intro r h
    by_cases hws : isWsChar c = true
    · have hlw : lstripWs (c :: cs) = lstripWs cs := by
        unfold lstripWs
        rw [List.dropWhile_cons, hws]
        rfl
      rw [hlw] at h
      have hany := ih r h
      by_cases hc : c = '\n'
      · have hlines : linesOf (c :: cs) = [] :: linesOf cs := by
          show linesAux [] (c :: cs) = [] :: linesAux [] cs
          rw [linesAux_cons, if_pos hc]
        rw [hlines, List.any_cons]
        simp [hany]
      · obtain ⟨h0, tl, h1, h2⟩ := linesAux_acc_structure cs [c]
        have hlines : linesOf (c :: cs) = (c :: h0) :: tl := by
          show linesAux [] (c :: cs) = (c :: h0) :: tl
          rw [linesAux_cons, if_neg hc,
            show ([] : List Char) ++ [c] = [c] from rfl, h2]
          simp
        rw [show linesOf cs = linesAux [] cs from rfl, h1, List.any_cons] at hany
        rw [hlines, List.any_cons]
        rcases (Bool.or_eq_true _ _).mp hany with hP | hrest
        · rw [lineStartsLabel_ws_cons pat c h0 hws, hP]
          simp
        · simp [hrest]
    · have hf : isWsChar c = false := by simpa using hws
      have hlw : lstripWs (c :: cs) = c :: cs := by
        unfold lstripWs
        simp [List.dropWhile_cons, hf]
      rw [hlw] at h
      have hcne : ¬ c = '\n' := by
        intro hceq
        rw [hceq] at hf
        exact absurd hf (by decide)
      have hy : (c :: cs).dropWhile (fun x => ¬ x = '\n') = [] ∨
          ∃ ys, (c :: cs).dropWhile (fun x => ¬ x = '\n') = '\n' :: ys := by
        cases hR : (c :: cs).dropWhile (fun x => ¬ x = '\n') with
        | nil => exact Or.inl rfl
        | cons rr rs =>
          refine Or.inr ⟨rs, ?_⟩
          have hpr := dropWhile_head_not (fun x => ¬ x = '\n') (c :: cs) rr rs hR
          have hrr : rr = '\n' := by simpa using hpr
          rw [hrr]
      have hstarts :
          startsCI pat ((c :: cs).takeWhile (fun x => ¬ x = '\n')) = true := by
        apply stripCI_newline_barrier pat _
          ((c :: cs).dropWhile (fun x => ¬ x = '\n')) r hnl hy
        rw [List.takeWhile_append_dropWhile]
        exact h
      obtain ⟨tl, hfst⟩ := linesOf_first (c :: cs)
      rw [hfst, List.any_cons]
      have htw : (c :: cs).takeWhile (fun x => ¬ x = '\n')
          = c :: cs.takeWhile (fun x => ¬ x = '\n') := by
        rw [List.takeWhile_cons]
        simp [hcne]
      have hP : lineStartsLabel pat ((c :: cs).takeWhile (fun x => ¬ x = '\n'))
          = true := by
        unfold lineStartsLabel
        have hls : lstripWs ((c :: cs).takeWhile (fun x => ¬ x = '\n'))
            = (c :: cs).takeWhile (fun x => ¬ x = '\n') := by
          rw [htw]
          unfold lstripWs
          simp [List.dropWhile_cons, hf]
        rw [hls]
        exact hstarts
      rw [hP]
      simp

theorem lineTailsGo_linesOf_drop :
    ∀ (t s : List Char), s ∈ lineTailsGo t →
      ∃ k, linesOf s = (linesOf t).drop (k + 1) := by
  intro t
  induction t with
  | nil => intro s hs; simp [lineTailsGo] at hs
  | cons c cs ih =>
    intro s hs
    by_cases hc : c = '\n'
    · rw [show lineTailsGo (c :: cs) = cs :: lineTailsGo cs from by
        rw [lineTailsGo_cons, if_pos hc]] at hs
      have hlines : linesOf (c :: cs) = [] :: linesOf cs := by
        show linesAux [] (c :: cs) = [] :: linesAux [] cs
        rw [linesAux_cons, if_pos hc]
      rcases List.mem_cons.mp hs with h | h
      · refine ⟨0, ?_⟩
        rw [h, hlines]
        rfl
      · obtain ⟨k, hk⟩ := ih s h
        refine ⟨k + 1, ?_⟩
        rw [hlines, hk]
        rfl
    · rw [show lineTailsGo (c :: cs) = lineTailsGo cs from by
        rw [lineTailsGo_cons, if_neg hc]] at hs
      obtain ⟨k, hk⟩ := ih s hs
      obtain ⟨h0, tl, h1, h2⟩ := linesAux_acc_structure cs [c]
      have hlines : linesOf (c :: cs) = (c :: h0) :: tl := by
        show linesAux [] (c :: cs) = (c :: h0) :: tl
        rw [linesAux_cons, if_neg hc,
          show ([] : List Char) ++ [c] = [c] from rfl, h2]
        simp
      refine ⟨k, ?_⟩
      rw [hlines]
      rw [show linesOf cs = linesAux [] cs from rfl, h1] at hk
      rw [hk]
      rfl

theorem mem_linesOf_of_tail (t s l : List Char) (hs : s ∈ lineTails t)
    (hl : l ∈ linesOf s) : l ∈ linesOf t := by
  rcases List.mem_cons.mp hs with h | h
  · rwa [h] at hl
  · obtain ⟨k, hk⟩ := lineTailsGo_linesOf_drop t s h
    rw [hk] at hl
    exact List.mem_of_mem_drop hl

/-- A document-level scan whose per-position matcher requires the label
prefix finds nothing when no line starts with the label. -/
theorem findSome_tails_eq_none {α : Type} (f : List Char → Option α)
    (pat t : List Char) (hne : pat ≠ [])
    (hnl : ∀ p ∈ pat, ciEq p '\n' = false)
    (hf : ∀ s, stripCI pat (lstripWs s) = none → f s = none)
    (h : (linesOf t).any (lineStartsLabel pat) = false) :
    (lineTails t).findSome? f = none := by
  rw [List.findSome?_eq_none_iff]
  intro s hs
  apply hf
  cases hstrip : stripCI pat (lstripWs s) with
  | none => rfl
  | some r =>
    exfalso
    have hany := stripCI_lstrip_line pat hne hnl s r hstrip
    obtain ⟨l, hlmem, hP⟩ := List.any_eq_true.mp hany
    have hlt : l ∈ linesOf t := mem_linesOf_of_tail t s l hs hlmem
    have hfalse := List.any_eq_false.mp h l hlt
    rw [hP] at hfalse
    exact absurd hfalse (by simp)

theorem grabLine_eq_none_of_no_label (t label : List Char) (hne : label ≠ [])
    (hnl : ∀ p ∈ label, ciEq p '\n' = false)
    (h : (linesOf t).any (lineStartsLabel label) = false) :
    grabLine t label = none := by
  unfold grabLine
  apply findSome_tails_eq_none (grabAt label) label t hne hnl ?_ h
  intro s h0
  unfold grabAt
  rw [h0]

theorem mem_linesAux_tails :
    ∀ (t acc l : List Char), l ∈ linesAux acc t →
      (∃ rest, acc ++ t = l ++ rest) ∨ (∃ rest, l ++ rest ∈ lineTailsGo t) := by
  intro t
  induction t with
  | nil =>
    intro acc l hl
    simp only [linesAux, List.mem_singleton] at hl
    exact Or.inl ⟨[], by rw [hl]⟩
  | cons c cs ih =>
    intro acc l hl
    by_cases hc : c = '\n'
    · rw [show linesAux acc (c :: cs) = acc :: linesAux [] cs from by
        rw [linesAux_cons, if_pos hc]] at hl
      rcases List.mem_cons.mp hl with h | h
      · exact Or.inl ⟨c :: cs, by rw [h]⟩
      · rcases ih [] l h with ⟨rest, hr⟩ | ⟨rest, hr⟩
        · right
          refine ⟨rest, ?_⟩
          rw [show lineTailsGo (c :: cs) = cs :: lineTailsGo cs from by
            rw [lineTailsGo_cons, if_pos hc]]
          simp only [List.nil_append] at hr
          rw [← hr]
          exact List.mem_cons_self _ _
        · right
          refine ⟨rest, ?_⟩
          rw [show lineTailsGo (c :: cs) = cs :: lineTailsGo cs from by
            rw [lineTailsGo_cons, if_pos hc]]
          exact List.mem_cons_of_mem _ hr
    · rw [show linesAux acc (c :: cs) = linesAux (acc ++ [c]) cs from by
        rw [linesAux_cons, if_neg hc]] at hl
      rcases ih (acc ++ [c]) l hl with ⟨rest, hr⟩ | ⟨rest, hr⟩
      · left
        refine ⟨rest, ?_⟩
        rw [← hr]
        simp
      · right
        refine ⟨rest, ?_⟩
        rwa [show lineTailsGo (c :: cs) = lineTailsGo cs from by
          rw [lineTailsGo_cons, if_neg hc]]

theorem mem_linesOf_exists_tail (t l : List Char) (hl : l ∈ linesOf t) :
    ∃ rest, l ++ rest ∈ lineTails t := by
  rcases mem_linesAux_tails t [] l hl with ⟨rest, hr⟩ | ⟨rest, hr⟩
  · refine ⟨rest, ?_⟩
    simp only [List.nil_append] at hr
    rw [← hr]
    exact List.mem_cons_self _ _
  · exact ⟨rest, List.mem_cons_of_mem _ hr⟩

theorem no_newline_in_linesAux :
    ∀ (t acc l : List Char), l ∈ linesAux acc t → (∀ c ∈ acc, ¬ c = '\n') →
      ∀ c ∈ l, ¬ c = '\n' := by
  intro t
  induction t with
  | nil =>
    intro acc l hl hacc
    simp only [linesAux, List.mem_singleton] at hl
    rw [hl]
    exact hacc
  | cons d ds ih =>
    intro acc l hl hacc
    by_cases hd : d = '\n'
    · rw [show linesAux acc (d :: ds) = acc :: linesAux [] ds from by
        rw [linesAux_cons, if_pos hd]] at hl
      rcases List.mem_cons.mp hl with h | h
      · rw [h]
        exact hacc
      · exact ih [] l h (by simp)
    · rw [show linesAux acc (d :: ds) = linesAux (acc ++ [d]) ds from by
        rw [linesAux_cons, if_neg hd]] at hl
      refine ih (acc ++ [d]) l hl ?_
      intro c hcm
      rcases List.mem_append.mp hcm with h | h
      · exact hacc c h
      · simp only [List.mem_singleton] at h
        rw [h]
        exact hd

/-- A line on which the single-line subject matcher succeeds makes the
document-level attempt at that line's start succeed too, whatever
follows the line: the value part always finds either the rest of the
line, a later line, or a trailing non-newline whitespace character. -/
theorem subjectAt_append_isSome (l rest : List Char)
    (hnl : ∀ c ∈ l, ¬ c = '\n')
    (h : (lineSubjectTarget l).isSome = true) :
    (subjectAt (l ++ rest)).isSome = true := by
  unfold lineSubjectTarget at h
  cases h1 : stripCI "subject:".data (lstripWs l) with
  | none => rw [h1] at h; simp at h
  | some r =>
    rw [h1] at h
    dsimp only at h
    cases h2 : stripCI "attack report:".data (lstripWs r) with
    | none => rw [h2] at h; simp at h
    | some rest0 =>
      rw [h2] at h
      dsimp only at h
      have hr0 : rest0 ≠ [] := by
        intro he
        rw [if_pos he] at h
        simp at h
      have hl1 : lstripWs l ≠ [] := by
        intro he
        rw [he] at h1
        simp [stripCI] at h1
      have hr1 : lstripWs r ≠ [] := by
        intro he
        rw [he] at h2
        simp [stripCI] at h2
      simp only [subjectAt, attackReportLabel]
      rw [lstripWs_append_ne l rest hl1,
        stripCI_append_right _ (lstripWs l) rest r h1]
      dsimp only
      rw [lstripWs_append_ne r rest hr1,
        stripCI_append_right _ (lstripWs r) rest rest0 h2]
      dsimp only
      unfold grabValueTail
      by_cases hu : lstripWs (rest0 ++ rest) = []
      · rw [if_pos hu]
        have hsuf : rest0 <:+ l := by
          have s1 : rest0 <:+ lstripWs r := stripCI_isSuffix _ _ _ h2
          have s2 : lstripWs r <:+ r := lstripWs_isSuffix r
          have s3 : r <:+ lstripWs l := stripCI_isSuffix _ _ _ h1
          have s4 : lstripWs l <:+ l := lstripWs_isSuffix l
          exact ((s1.trans s2).trans s3).trans s4
        cases hrc : rest0 with
        | nil => exact absurd hrc hr0
        | cons c0 cr =>
          rw [hrc] at hsuf
          have hcmem : c0 ∈ l := hsuf.subset (List.mem_cons_self c0 cr)
          have hc0 : ¬ c0 = '\n' := hnl c0 hcmem
          have hany : (((c0 :: cr) ++ rest).any (fun c => ¬ c = '\n')) = true :=
            List.any_eq_true.mpr ⟨c0, by simp, by simpa using hc0⟩
          rw [if_pos hany]
          rfl
      · rw [if_neg hu]
        rfl

theorem findSome_isSome_of_mem {α : Type} (f : List Char → Option α) :
    ∀ (xs : List (List Char)) (s : List Char), s ∈ xs →
      (f s).isSome = true → (xs.findSome? f).isSome = true := by
  intro xs
  induction xs with
  | nil => intro s hs _; simp at hs
  | cons a l ih =>
    intro s hs hf
    rw [List.findSome?_cons]
    cases ha : f a with
    | some v => simp
    | none =>
      rcases List.mem_cons.mp hs with h | h
      · rw [← h] at ha
        rw [ha] at hf
        simp at hf
      · simpa using ih s h hf

/-- C4 counterexample: two raw texts with no `Target: <value>` line that
refute the claim.  In the first the greedy whitespace of the `_grab_line`
pattern crosses the newline after the bare `Target:` line, so the parser
extracts the next line as the target (refuting `target = none`) and the
ingestion boundary stores the report (refuting the rejection).  The
second contains an `Attack Report:` header, is classified as an attack
and stored under the attack target, again without rejection. -/
theorem spy_no_target_reject_counterexample :
    (hasLabeledLine targetNextLineDoc "Target".data = false ∧
     (parseSpyReport targetNextLineDoc).target = some "Avalon".data ∧
     (ingestReport targetNextLineDoc).isRejection = false ∧
     ingestReport targetNextLineDoc =
       .storedSpy (parseSpyReport targetNextLineDoc)) ∧
    (hasLabeledLine attackOnlyDoc "Target".data = false ∧
     (ingestReport attackOnlyDoc).isRejection = false ∧
     ingestReport attackOnlyDoc =
       .storedAttack ⟨some "Bob".data, some 1, none, [], []⟩) :=
  ⟨⟨by decide, by decide, by decide, by decide⟩,
   ⟨by decide, by decide, by decide⟩⟩

/-- C4 (amended): for raw text in which no line begins (after optional
leading whitespace) with the label `Target` (case-insensitively), the
spy parser yields no target, and the ingestion boundary rejects the
submission provided the text is additionally not classified as an attack
report (no line begins with `Attack Report:`). -/
theorem spy_no_target_rejected (text : List Char)
    (hno : (linesOf text).any (lineStartsLabel "Target".data) = false) :
    (parseSpyReport text).target = none ∧
    (isAttackText text = false → (ingestReport text).isRejection = true) := by
  constructor
  · exact grabLine_eq_none_of_no_label text "Target".data (by decide)
      (by decide) hno
  · intro hatk
    unfold ingestReport
    by_cases ht : pyStrip text = []
    · rw [if_pos ht]
      rfl
    · rw [if_neg ht]
      have hatk' : isAttackText (pyStrip text) = false := by
        cases hcase : isAttackText (pyStrip text) with
        | false => rfl
        | true => rw [isAttackText_of_strip text hcase] at hatk; exact absurd hatk (by simp)
      have hno' : (linesOf (pyStrip text)).any (lineStartsLabel "Target".data)
          = false := by
        cases hcase : (linesOf (pyStrip text)).any (lineStartsLabel "Target".data) with
        | false => rfl
        | true =>
          rw [anyLabel_of_strip "Target".data text (by decide) hcase] at hno
          exact absurd hno (by simp)
      rw [if_neg (by simp [hatk'])]
      have htarget : (parseSpyReport (pyStrip text)).target = none :=
        grabLine_eq_none_of_no_label (pyStrip text) "Target".data (by decide)
          (by decide) hno'
      simp only [htarget, Option.getD_none]
      rfl

theorem spy_no_target_rejected_witness :
    ((linesOf plainDoc).any (lineStartsLabel "Target".data) = false ∧
     isAttackText plainDoc = false) ∧
    ((parseSpyReport plainDoc).target = none ∧
     (ingestReport plainDoc).isRejection = true) :=
  ⟨⟨by decide, by decide⟩,
   ⟨(spy_no_target_rejected plainDoc (by decide)).1,
    (spy_no_target_rejected plainDoc (by decide)).2 (by decide)⟩⟩

theorem chars_of_lines :
    ∀ (t acc l : List Char), l ∈ linesAux acc t → ∀ c ∈ l, c ∈ acc ∨ c ∈ t := by
  intro t
  induction t with
  | nil =>
    intro acc l hl c hc
    simp only [linesAux, List.mem_singleton] at hl
    subst hl
    exact Or.inl hc
  | cons d ds ih =>
    intro acc l hl c hc
    unfold linesAux at hl
    by_cases hd : d = '\n'
    · rw [if_pos hd] at hl
      rcases List.mem_cons.mp hl with h1 | h2
      · subst h1; exact Or.inl hc
      · rcases ih [] l h2 c hc with h | h
        · simp at h
        · exact Or.inr (List.mem_cons_of_mem d h)
    · rw [if_neg hd] at hl
      rcases ih (acc ++ [d]) l hl c hc with h | h
      · rcases List.mem_append.mp h with h | h
        · exact Or.inl h
        · simp only [List.mem_singleton] at h
          rw [h]
          exact Or.inr (List.mem_cons_self d ds)
      · exact Or.inr (List.mem_cons_of_mem d h)

theorem allWs_of_strip_nil (t : List Char) (h : pyStrip t = []) :
    ∀ x ∈ t, isWsChar x = true := by
  unfold pyStrip rstripWs at h
  have h1 : (lstripWs t).reverse.dropWhile isWsChar = [] := by
    have := congrArg List.reverse h
    simpa using this
  have h3 : ∀ x ∈ lstripWs t, isWsChar x = true := by
    intro x hx
    exact List.dropWhile_eq_nil_iff.mp h1 x (List.mem_reverse.mpr hx)
  intro x hx
  rw [← List.takeWhile_append_dropWhile isWsChar t] at hx
  rcases List.mem_append.mp hx with h | h
  · exact List.mem_takeWhile_imp h
  · exact h3 x h

/-- C10: a text in which no line begins with `Attack Report:` but some
line has the `Subject: Attack Report: <name>` form is classified as a
spy report by the ingestion boundary (so the attack parser is never
invoked on it), even though the attack parser's own subject-line
fallback would extract a target from it. -/
theorem subject_attack_classified_spy (text : List Char)
    (hno : (linesOf text).any lineStartsAttack = false)
    (hsub : hasSubjectAttackLine text = true) :
    isAttackText (pyStrip text) = false ∧
    ((ingestReport text = .rejectedSpyNoTarget) ∨
      (∃ ps, ingestReport text = .storedSpy ps)) ∧
    (parseAttackReport text).target.isSome = true := by
  have hatk' : isAttackText (pyStrip text) = false := by
    cases hcase : isAttackText (pyStrip text) with
    | false => rfl
    | true =>
      have := isAttackText_of_strip text hcase
      unfold isAttackText at this
      rw [this] at hno
      exact absurd hno (by simp)
  obtain ⟨lsub, hlsub, hsome⟩ := List.any_eq_true.mp hsub
  have hnonempty : pyStrip text ≠ [] := by
    intro hemp
    -- a subject line starts, after whitespace, with a non-whitespace
    -- character, so the text cannot be all whitespace
    have hl1 : lstripWs lsub ≠ [] := by
      intro he
      unfold lineSubjectTarget at hsome
      rw [he] at hsome
      simp [stripCI] at hsome
    have hex : ∃ c ∈ lsub, isWsChar c = false := by
      refine ⟨(lstripWs lsub).head hl1, ?_, ?_⟩
      · have hmem : (lstripWs lsub).head hl1 ∈ lstripWs lsub := List.head_mem hl1
        exact List.Sublist.mem hmem (List.dropWhile_sublist isWsChar)
      · exact List.head_dropWhile_not isWsChar lsub hl1
    obtain ⟨c, hcmem, hcnw⟩ := hex
    have hct : c ∈ text := by
      have := chars_of_lines text [] lsub hlsub c hcmem
      simpa using this
    have hall : ∀ x ∈ text, isWsChar x = true := allWs_of_strip_nil text hemp
    rw [hall c hct] at hcnw
    exact absurd hcnw (by simp)
  refine ⟨hatk', ?_, ?_⟩
  · unfold ingestReport
    rw [if_neg hnonempty, if_neg (by simp [hatk'])]
    by_cases hps : pyStrip ((parseSpyReport (pyStrip text)).target.getD []) = []
    · rw [if_pos hps]
      exact Or.inl rfl
    · rw [if_neg hps]
      exact Or.inr ⟨_, rfl⟩
  · unfold parseAttackReport
    have hprim : (lineTails text).findSome? attackPrimaryAt = none := by
      apply findSome_tails_eq_none attackPrimaryAt attackReportLabel text
        (by decide) (by decide) ?_ hno
      intro s h0
      unfold attackPrimaryAt
      rw [h0]
    rw [hprim]
    obtain ⟨rest, hmem⟩ := mem_linesOf_exists_tail text lsub hlsub
    have hnl : ∀ c ∈ lsub, ¬ c = '\n' :=
      no_newline_in_linesAux text [] lsub hlsub (by simp)
    have hsub2 : (subjectAt (lsub ++ rest)).isSome = true :=
      subjectAt_append_isSome lsub rest hnl hsome
    have hfb : ((lineTails text).findSome? subjectAt).isSome = true :=
      findSome_isSome_of_mem subjectAt (lineTails text) (lsub ++ rest) hmem hsub2
    cases hf : (lineTails text).findSome? subjectAt with
    | none => rw [hf] at hfb; simp at hfb
    | some v => rfl

theorem subject_attack_classified_spy_witness :
    ((linesOf subjectOnlyDoc).any lineStartsAttack = false ∧
     hasSubjectAttackLine subjectOnlyDoc = true) ∧
    (isAttackText (pyStrip subjectOnlyDoc) = false ∧
     ((ingestReport subjectOnlyDoc = .rejectedSpyNoTarget) ∨
       (∃ ps, ingestReport subjectOnlyDoc = .storedSpy ps)) ∧
     (parseAttackReport subjectOnlyDoc).target.isSome = true) :=
  ⟨⟨by decide, by decide⟩,
   subject_attack_classified_spy subjectOnlyDoc (by decide) (by decide)⟩

theorem selectSpy_eq_none :
    ∀ (table : List SpyRow) (target : List Char) (t : ℤ),
      (∀ row ∈ table, ¬ (row.kingdom = target ∧ row.createdAt ≤ t)) →
      selectSpy table target t = none := by
  intro table target t
  unfold selectSpy
  induction table with
  | nil => intro _; rfl
  | cons r rest ih =>
    intro h
    rw [List.foldl_cons]
    dsimp only
    rw [if_neg (h r (List.mem_cons_self r rest))]
    exact ih (fun row hrow => h row (List.mem_cons_of_mem r hrow))

/-- C2: whenever the estimator emits a calibration row, its defender
power is the spy report's observed defensive-power figure when that is
present and positive (else the computed troop power), multiplied by the
castle multiplier `1 + sqrt(castles)/100` (`1` when the castle count is
zero or absent), and its raw ratio is the attack power divided by
`max 1 defender_power`. -/
theorem known_hit_defender_power (table : List SpyRow) (rid t : ℤ)
    (pa : AttackParsed) (kh : KnownHit)
    (h : autoKnownHit table rid t pa = some kh) :
    ∃ spy, selectSpy table (pyStrip (pa.target.getD [])) t = some spy ∧
      kh.defDp =
        (if 0 < (parseSpyReport spy.raw).defenderDp.getD 0
         then (((parseSpyReport spy.raw).defenderDp.getD 0 : ℤ) : ℝ)
         else ((computeTroopDp (defenderUnitsFromSpy (parseSpyReport spy.raw))
           (attackUnitsFromCasualties pa.casualties) : ℚ) : ℝ))
        * (if 0 < (parseSpyReport spy.raw).castles.getD 0
           then 1 + Real.sqrt (((parseSpyReport spy.raw).castles.getD 0 : ℤ) : ℝ) / 100
           else 1) ∧
      kh.rawRatio = kh.atkPower / max 1 kh.defDp := by
  unfold autoKnownHit at h
  by_cases htar : pyStrip (pa.target.getD []) = []
  · rw [if_pos htar] at h
    exact absurd h (by simp)
  · rw [if_neg htar] at h
    cases hsel : selectSpy table (pyStrip (pa.target.getD [])) t with
    | none => rw [hsel] at h; exact absurd h (by simp)
    | some spy =>
      rw [hsel] at h
      dsimp only at h
      by_cases hraw : pyStrip spy.raw = []
      · rw [if_pos hraw] at h
        exact absurd h (by simp)
      · rw [if_neg hraw] at h
        by_cases hdp : resolvedDefDp (parseSpyReport spy.raw)
            (attackUnitsFromCasualties pa.casualties) ≤ 0
        · rw [if_pos hdp] at h
          exact absurd h (by simp)
        · rw [if_neg hdp] at h
          injection h with h
          subst h
          refine ⟨spy, rfl, ?_, rfl⟩
          show resolvedDefDp (parseSpyReport spy.raw)
            (attackUnitsFromCasualties pa.casualties) = _
          simp only [resolvedDefDp, castleMultOf, Int.cast_pos]
          by_cases hbase : 0 < (parseSpyReport spy.raw).defenderDp.getD 0
          · rw [if_pos hbase, if_pos hbase]
            by_cases hc : 0 < (parseSpyReport spy.raw).castles.getD 0
            · rw [if_pos hc, if_pos hc, max_eq_right hc.le]
              push_cast
              ring
            · rw [if_neg hc, if_neg hc]
              push_cast
              ring
          · rw [if_neg hbase, if_neg hbase]
            by_cases hc : 0 < (parseSpyReport spy.raw).castles.getD 0
            · rw [if_pos hc, if_pos hc, max_eq_right hc.le]
            · rw [if_neg hc, if_neg hc]
              ring

theorem known_hit_defender_power_witness :
    autoKnownHit witnessSpyTable 7 5 witnessAttack = some witnessKH ∧
    (∃ spy, selectSpy witnessSpyTable (pyStrip (witnessAttack.target.getD [])) 5
        = some spy ∧
      witnessKH.defDp =
        (if 0 < (parseSpyReport spy.raw).defenderDp.getD 0
         then (((parseSpyReport spy.raw).defenderDp.getD 0 : ℤ) : ℝ)
         else ((computeTroopDp (defenderUnitsFromSpy (parseSpyReport spy.raw))
           (attackUnitsFromCasualties witnessAttack.casualties) : ℚ) : ℝ))
        * (if 0 < (parseSpyReport spy.raw).castles.getD 0
           then 1 + Real.sqrt (((parseSpyReport spy.raw).castles.getD 0 : ℤ) : ℝ) / 100
           else 1) ∧
      witnessKH.rawRatio = witnessKH.atkPower / max 1 witnessKH.defDp) := by
  have hdpval : (parseSpyReport witnessSpyRaw).defenderDp = some 1000 := by decide
  have hcast : (parseSpyReport witnessSpyRaw).castles = none := by decide
  have hpos : ¬ resolvedDefDp (parseSpyReport witnessSpyRaw)
      (attackUnitsFromCasualties witnessAttack.casualties) ≤ 0 := by
    simp only [resolvedDefDp, castleMultOf]
    rw [hdpval, hcast]
    dsimp only [Option.getD_some, Option.getD_none]
    rw [if_pos (by norm_num : (0:ℚ) < ((1000:ℤ):ℚ))]
    rw [if_neg (by norm_num : ¬ (0:ℤ) < 0)]
    push_cast
    norm_num
  have heq : autoKnownHit witnessSpyTable 7 5 witnessAttack = some witnessKH := by
    have hkey : autoKnownHit witnessSpyTable 7 5 witnessAttack
        = if resolvedDefDp (parseSpyReport witnessSpyRaw)
            (attackUnitsFromCasualties witnessAttack.casualties) ≤ 0
          then none else some witnessKH := rfl
    rw [hkey, if_neg hpos]
  exact ⟨heq, known_hit_defender_power witnessSpyTable 7 5 witnessAttack witnessKH heq⟩

/-- C3: the estimator creates no calibration row when no spy report for
the attack's target exists at or before the attack's timestamp, or when
the resolved defender power is non-positive; both are normal skip
outcomes of the total function, and every emitted row has positive
defender power. -/
theorem known_hit_skip_conditions (table : List SpyRow) (rid t : ℤ)
    (pa : AttackParsed) :
    ((∀ row ∈ table, ¬ (row.kingdom = pyStrip (pa.target.getD [])
        ∧ row.createdAt ≤ t)) →
      autoKnownHit table rid t pa = none) ∧
    (∀ spy, selectSpy table (pyStrip (pa.target.getD [])) t = some spy →
      resolvedDefDp (parseSpyReport spy.raw)
          (attackUnitsFromCasualties pa.casualties) ≤ 0 →
      autoKnownHit table rid t pa = none) ∧
    (∀ kh, autoKnownHit table rid t pa = some kh → 0 < kh.defDp) := by
  refine ⟨?_, ?_, ?_⟩
  · intro h
    unfold autoKnownHit
    by_cases htar : pyStrip (pa.target.getD []) = []
    · rw [if_pos htar]
    · rw [if_neg htar, selectSpy_eq_none table (pyStrip (pa.target.getD [])) t h]
  · intro spy hsel hdp
    unfold autoKnownHit
    by_cases htar : pyStrip (pa.target.getD []) = []
    · rw [if_pos htar]
    · rw [if_neg htar, hsel]
      dsimp only
      by_cases hraw : pyStrip spy.raw = []
      · rw [if_pos hraw]
      · rw [if_neg hraw, if_pos hdp]
  · intro kh h
    unfold autoKnownHit at h
    by_cases htar : pyStrip (pa.target.getD []) = []
    · rw [if_pos htar] at h
      exact absurd h (by simp)
    · rw [if_neg htar] at h
      cases hsel : selectSpy table (pyStrip (pa.target.getD [])) t with
      | none => rw [hsel] at h; exact absurd h (by simp)
      | some spy =>
        rw [hsel] at h
        dsimp only at h
        by_cases hraw : pyStrip spy.raw = []
        · rw [if_pos hraw] at h
          exact absurd h (by simp)
        · rw [if_neg hraw] at h
          by_cases hdp : resolvedDefDp (parseSpyReport spy.raw)
              (attackUnitsFromCasualties pa.casualties) ≤ 0
          · rw [if_pos hdp] at h
            exact absurd h (by simp)
          · rw [if_neg hdp] at h
            injection h with h
            subst h
            exact lt_of_not_le hdp

theorem known_hit_skip_conditions_witness :
    autoKnownHit [] 7 5 witnessAttack = none :=
  (known_hit_skip_conditions [] 7 5 witnessAttack).1 (by simp)

end EvalFacts

end ReconHub
